import Mathlib

/-!
Verification development for the veBTC incremental synchronization and
aggregation pipeline (vebtc.py).  The Python source is shallowly embedded:
dictionaries become structures with optional fields, Python exceptions become
Option failures, floats become rationals, and calendar dates become day
numbers (days since the Unix epoch, computed by the standard civil-calendar
conversion).
-/

namespace Vebtc

/-- Configuration constant CONTRACT_ADDRESS from the source. -/
def CONTRACT_ADDRESS : String := "0x3D4b1b884A7a1E59fE8589a3296EC8f8cBB6f279"

/-- Configuration constant VOTED_TOPIC_0 from the source. -/
def VOTED_TOPIC_0 : String := "0x452d440efc30dfa14a0ef803ccb55936af860ec6a6960ed27f129bef913f296a"

/-- Configuration constant DEFAULT_DECIMALS from the source. -/
def DEFAULT_DECIMALS : Nat := 18

/-! ## Python value helpers -/

/-- Value of a decoded log parameter: a JSON number-like value (embedded as a
rational), a JSON string, or null.  Python float()/int() raise on null and on
non-numeric strings; that failure is modelled as Option.none. -/
inductive PVal where
  | pnum (q : ℚ)
  | pstr (s : String)
  | pnull
deriving DecidableEq

/-- Numeric value of a decimal digit, none for other characters. -/
def digitVal? (c : Char) : Option Nat :=
  if '0' ≤ c ∧ c ≤ '9' then some (c.toNat - '0'.toNat) else none

/-- Reads a nonempty all-digit character list as a natural number. -/
def digitsToNat? (cs : List Char) : Option Nat :=
  if cs.isEmpty then none
  else cs.foldl (fun acc c =>
    match acc, digitVal? c with
    | some n, some d => some (n * 10 + d)
    | _, _ => none) (some 0)

/-- Python float() on a plain decimal string literal (optional sign, optional
fractional part); exotic literals are out of the modelled domain. -/
def decStrToRat? (s : String) : Option ℚ :=
  let cs := s.toList
  let neg := cs.head? = some '-'
  let body := if neg then cs.tail else cs
  let ip := body.takeWhile (fun c => !(c == '.'))
  let rest := body.dropWhile (fun c => !(c == '.'))
  match rest with
  | [] => (digitsToNat? ip).map (fun n => if neg then -(n : ℚ) else (n : ℚ))
  | _ :: fp =>
    if fp.all (fun c => !(c == '.')) then
      match digitsToNat? ip, digitsToNat? fp with
      | some i, some f =>
        let q : ℚ := (i : ℚ) + (f : ℚ) / ((10 : ℚ) ^ fp.length)
        some (if neg then -q else q)
      | _, _ => none
    else none

/-- Python int() on a plain integer string literal. -/
def intStrToInt? (s : String) : Option Int :=
  let cs := s.toList
  let neg := cs.head? = some '-'
  let body := if neg then cs.tail else cs
  (digitsToNat? body).map (fun n => if neg then -(n : Int) else (n : Int))

/-- Truncation of a rational toward zero, as Python int() applied to a float. -/
def ratTrunc (q : ℚ) : Int :=
  q.num.tdiv (q.den : Int)

/-- Python float(v); none models a raised exception. -/
def pyFloat : PVal → Option ℚ
  | PVal.pnum q => some q
  | PVal.pstr s => decStrToRat? s
  | PVal.pnull => none

/-- Python int(v); none models a raised exception. -/
def pyInt : PVal → Option Int
  | PVal.pnum q => some (ratTrunc q)
  | PVal.pstr s => intStrToInt? s
  | PVal.pnull => none

/-- Python str(v); total. -/
def pyStr : PVal → String
  | PVal.pnum q => toString q
  | PVal.pstr s => s
  | PVal.pnull => "None"

/-- Python truthiness of an optional string (None and the empty string are
falsy). -/
def pyTruthyStr : Option String → Bool
  | some s => !(s == "")
  | none => false

/-- Python a-or-b on optional strings: the first operand if truthy, else the
second operand (whatever its truthiness, as in Python). -/
def pyOrStr (a b : Option String) : Option String :=
  if pyTruthyStr a then a else b

/-- Rendering of an optional string inside an f-string: None prints as
"None". -/
def strOfOptStr : Option String → String
  | some s => s
  | none => "None"

/-! ## Raw items -/

/-- The value stored under the total field of a transfer item: a bare number,
null, or an object whose value key is either a number or absent/null. -/
inductive TotalField where
  | tnum (q : ℚ)
  | tnull
  | tobj (value : Option ℚ)
deriving DecidableEq

/-- The value stored under the from field of a transfer item. -/
inductive FromField where
  | fnull
  | fstr (s : String)
  | fobj (hash : String)
deriving DecidableEq

/-- One decoded log parameter. -/
structure VParam where
  name : String
  value : PVal
deriving DecidableEq

/-- A raw item as returned by the remote source, covering both the
transfer shape and the log shape.  Outer none means the key is absent.
For the integer index fields, some none models a present null value. -/
structure RawItem where
  tx_hash : Option String
  transaction_hash : Option String
  hash : Option String
  index : Option (Option Nat)
  log_index : Option (Option Nat)
  timestamp : Option String
  block_timestamp : Option String
  total : Option TotalField
  fromField : Option FromField
  topics : List String
  decoded : Option (List VParam)
  data : Option String
deriving DecidableEq

/-- A raw item with every field absent. -/
def blankItem : RawItem :=
  ⟨none, none, none, none, none, none, none, none, none, [], none, none⟩

/-! ## Record identity (get_unique_id) -/

/-- Rendering of a present index value: str(None) is "None". -/
def idxStr : Option Nat → String
  | some n => toString n
  | none => "None"

/-- Embeds get_unique_id from the source: the transaction identifier is the
Python or-chain over tx_hash, transaction_hash, hash, and the index is
item.get("index", item.get("log_index", "0")). -/
def get_unique_id (item : RawItem) : String :=
  let uid := pyOrStr (pyOrStr item.tx_hash item.transaction_hash) item.hash
  let idx :=
    match item.index with
    | some v => idxStr v
    | none =>
      match item.log_index with
      | some v => idxStr v
      | none => "0"
  strOfOptStr uid ++ "_" ++ idx

/-- First present value in a list of optional fields (presence-based, the
literal reading of the specification sentence for RecordKey). -/
def firstPresent : List (Option String) → Option String
  | [] => none
  | some s :: _ => some s
  | none :: rest => firstPresent rest

/-- Modelled from the words of the specification: RecordKey built from the
first PRESENT transaction-identifier field, regardless of truthiness. -/
def specIdentify (item : RawItem) : String :=
  let uid := firstPresent [item.tx_hash, item.transaction_hash, item.hash]
  let idx :=
    match item.index with
    | some v => idxStr v
    | none =>
      match item.log_index with
      | some v => idxStr v
      | none => "0"
  strOfOptStr uid ++ "_" ++ idx

/-- First transaction-identifier field carrying a truthy (present, non-empty)
value. -/
def firstTruthy : List (Option String) → Option String
  | [] => none
  | a :: rest => if pyTruthyStr a then a else firstTruthy rest

/-- Amended specification of the record key: the transaction identifier is the
first of tx_hash, transaction_hash, hash holding a non-empty string; if none
does, the value of the hash field is used as-is (rendering as "None" when the
field is absent or null). -/
def specIdentifyAmended (item : RawItem) : String :=
  let uid :=
    match firstTruthy [item.tx_hash, item.transaction_hash] with
    | some s => some s
    | none => item.hash
  let idx :=
    match item.index with
    | some v => idxStr v
    | none =>
      match item.log_index with
      | some v => idxStr v
      | none => "0"
  strOfOptStr uid ++ "_" ++ idx

/-! ## Timestamps -/

/-- Reads exactly four leading decimal digits (the strptime %Y pattern). -/
def take4Digits : List Char → Option (Nat × List Char)
  | a :: b :: c :: d :: rest =>
    match digitVal? a, digitVal? b, digitVal? c, digitVal? d with
    | some x, some y, some z, some w => some (((x * 10 + y) * 10 + z) * 10 + w, rest)
    | _, _, _, _ => none
  | _ => none

/-- Reads one or two leading decimal digits, greedily (the strptime patterns
for %m, %d, %H, %M, %S; the following delimiter is never a digit, so greedy
matching coincides with the regex used by strptime). -/
def takeDigits12 : List Char → Option (Nat × List Char)
  | c1 :: c2 :: rest =>
    match digitVal? c1, digitVal? c2 with
    | some d1, some d2 => some (d1 * 10 + d2, rest)
    | some d1, none => some (d1, c2 :: rest)
    | none, _ => none
  | [c1] => (digitVal? c1).map (fun d => (d, ([] : List Char)))
  | [] => none

/-- Consumes one expected literal character. -/
def expectChar (c : Char) : List Char → Option (List Char)
  | x :: rest => if x = c then some rest else none
  | [] => none

/-- Gregorian leap-year test. -/
def isLeap (y : Nat) : Bool :=
  (y % 4 == 0 && y % 100 != 0) || y % 400 == 0

/-- Number of days in a month, for the validation performed by strptime and
the datetime constructor. -/
def daysInMonth (y m : Nat) : Nat :=
  if m = 2 then (if isLeap y then 29 else 28)
  else if m = 4 ∨ m = 6 ∨ m = 9 ∨ m = 11 then 30
  else 31

/-- Embeds datetime.strptime with format %Y-%m-%dT%H:%M:%S, including the
range validation of the datetime constructor; none models ValueError. -/
def strptimeYmdHMS (s : List Char) : Option (Nat × Nat × Nat × Nat × Nat × Nat) :=
  match take4Digits s with
  | none => none
  | some (y, r1) =>
    match expectChar '-' r1 with
    | none => none
    | some r2 =>
      match takeDigits12 r2 with
      | none => none
      | some (m, r3) =>
        match expectChar '-' r3 with
        | none => none
        | some r4 =>
          match takeDigits12 r4 with
          | none => none
          | some (d, r5) =>
            match expectChar 'T' r5 with
            | none => none
            | some r6 =>
              match takeDigits12 r6 with
              | none => none
              | some (h, r7) =>
                match expectChar ':' r7 with
                | none => none
                | some r8 =>
                  match takeDigits12 r8 with
                  | none => none
                  | some (mi, r9) =>
                    match expectChar ':' r9 with
                    | none => none
                    | some r10 =>
                      match takeDigits12 r10 with
                      | none => none
                      | some (sec, r11) =>
                        if r11 = [] ∧ 1 ≤ y ∧ 1 ≤ m ∧ m ≤ 12 ∧ 1 ≤ d ∧
                            d ≤ daysInMonth y m ∧ h ≤ 23 ∧ mi ≤ 59 ∧ sec ≤ 59
                        then some (y, m, d, h, mi, sec)
                        else none

/-- Day number (days since 1970-01-01) of a civil date, by the standard
civil-from-days conversion; valid for years from 1 onward. -/
def daysFromCivil (y m d : Nat) : Int :=
  let yy := if m ≤ 2 then y - 1 else y
  let era := yy / 400
  let yoe := yy % 400
  let mp := (m + 9) % 12
  let doy := (153 * mp + 2) / 5 + d - 1
  let doe := yoe * 365 + yoe / 4 - yoe / 100 + doy
  ((era * 146097 + doe : Nat) : Int) - 719468

/-- An instant, as the pair of its calendar day number and its epoch-second
count (UTC). -/
structure PyDateTime where
  day : Int
  secs : Int
deriving DecidableEq

/-- Embeds the pattern datetime.strptime(ts.split(".")[0].replace("Z", ""),
"%Y-%m-%dT%H:%M:%S") used for the item timestamp strings: the prefix before
the first dot with every Z removed, parsed and validated; none models a
raised ValueError. -/
def pyParseTs (s : String) : Option PyDateTime :=
  let t := (s.toList.takeWhile (fun c => !(c == '.'))).filter (fun c => !(c == 'Z'))
  match strptimeYmdHMS t with
  | some (y, m, d, h, mi, sec) =>
    let dayN := daysFromCivil y m d
    some ⟨dayN, dayN * 86400 + ((h * 3600 + mi * 60 + sec : Nat) : Int)⟩
  | none => none

/-- Largest epoch second datetime.fromtimestamp accepts (year 9999, UTC). -/
def MAX_TS : Int := 253402300799

/-- Embeds datetime.fromtimestamp on an in-range positive epoch second count
(UTC). -/
def fromtimestamp (t : Int) : PyDateTime :=
  ⟨t.fdiv 86400, t⟩

/-! ## Size buckets -/

/-- Embeds the bucket-assignment conditional chain of parse_data. -/
def bucketOf (amount : ℚ) : String × Nat :=
  if amount < 1/1000 then ("< 0.001", 1)
  else if amount < 1/100 then ("0.001 - 0.01", 2)
  else if amount < 1/10 then ("0.01 - 0.1", 3)
  else if amount < 1 then ("0.1 - 1", 4)
  else ("1 and above", 5)

/-! ## Lock normalization (first loop of parse_data) -/

/-- One normalized lock record. -/
structure LockRecord where
  date : Int
  ts : Int
  amount : ℚ
  sender : String
  cat : String
  order : Nat
deriving DecidableEq

/-- ASCII lowercasing of one character (str.lower on the address strings the
pipeline compares, which are ASCII). -/
def myLowerChar (c : Char) : Char :=
  if 'A' ≤ c ∧ c ≤ 'Z' then Char.ofNat (c.toNat + 32) else c

/-- Embeds str.lower (on ASCII strings). -/
def pyLower (s : String) : String :=
  (s.toList.map myLowerChar).asString

/-- Embeds the sender extraction: from_obj.get("hash", str(from_obj)) when
the from field holds an object, str(from_obj) otherwise; an absent from key
defaults to the empty dict, which prints as "\x7b\x7d". -/
def senderOf (tx : RawItem) : String :=
  match tx.fromField with
  | none => "\x7b\x7d"
  | some FromField.fnull => "None"
  | some (FromField.fstr s) => s
  | some (FromField.fobj h) => h

/-- Embeds the amount extraction: raw_val = tx.get("total"), unwrapped from a
dict through its value key, then float(raw_val or 0) divided by 10^18. -/
def amountOf (tx : RawItem) : ℚ :=
  let raw : Option ℚ :=
    match tx.total with
    | none => none
    | some TotalField.tnull => none
    | some (TotalField.tnum q) => some q
    | some (TotalField.tobj v) => v
  (match raw with
   | none => 0
   | some q => q) / (10 : ℚ) ^ DEFAULT_DECIMALS

/-- Embeds one iteration of the lock loop of parse_data; none models both the
explicit continue statements and a raised exception. -/
def parseLock (tx : RawItem) : Option LockRecord :=
  match tx.timestamp with
  | none => none
  | some ts =>
    if ts = "" then none
    else
      match pyParseTs ts with
      | none => none
      | some dt =>
        let amount := amountOf tx
        let sender := senderOf tx
        if pyLower sender = pyLower CONTRACT_ADDRESS then none
        else
          let co := bucketOf amount
          some ⟨dt.day, dt.secs, amount, sender, co.1, co.2⟩

/-! ## Vote normalization (second loop of parse_data) -/

/-- One normalized vote record. -/
structure VoteRecord where
  date : Int
  ts : Int
  voting_power : ℚ
  total_weight : ℚ
  voter : String
deriving DecidableEq

/-- Mutable state of the vote-decoding loop body: weight, totalWeight, voter,
event timestamp, and the found_weight flag. -/
structure VoteSt where
  w : ℚ
  tw : ℚ
  voter : String
  ets : Option Int
  found : Bool
deriving DecidableEq

/-- Embeds one iteration of the decoded-parameter loop (METHOD A); none
models a raised conversion exception. -/
def stepParam (st : VoteSt) (p : VParam) : Option VoteSt :=
  if p.name = "weight" then
    match pyFloat p.value with
    | some q => some { st with w := q, found := true }
    | none => none
  else if p.name = "totalWeight" then
    match pyFloat p.value with
    | some q => some { st with tw := q }
    | none => none
  else if p.name = "voter" then
    some { st with voter := pyStr p.value }
  else if p.name = "timestamp" then
    match pyInt p.value with
    | some t => some { st with ets := some t }
    | none => none
  else some st

/-- Runs the decoded-parameter loop over the whole parameter list. -/
def foldParams : VoteSt → List VParam → Option VoteSt
  | st, [] => some st
  | st, p :: ps =>
    match stepParam st p with
    | some st2 => foldParams st2 ps
    | none => none

/-- Removes every occurrence of the two-character pattern 0x, scanning left
to right (the semantics of str.replace("0x", "")). -/
def remove0x : List Char → List Char
  | '0' :: 'x' :: rest => remove0x rest
  | c :: rest => c :: remove0x rest
  | [] => []

/-- Embeds log.get("data", "").replace("0x", "") as a character list. -/
def dataHexOf (log : RawItem) : List Char :=
  remove0x ((log.data).getD "").toList

/-- Value of a hexadecimal digit, none for other characters. -/
def hexDigVal? (c : Char) : Option Nat :=
  if '0' ≤ c ∧ c ≤ '9' then some (c.toNat - '0'.toNat)
  else if 'a' ≤ c ∧ c ≤ 'f' then some (c.toNat - 'a'.toNat + 10)
  else if 'A' ≤ c ∧ c ≤ 'F' then some (c.toNat - 'A'.toNat + 10)
  else none

/-- Embeds int(slice, 16) on a nonempty hex slice; none models ValueError. -/
def hexToNat? (cs : List Char) : Option Nat :=
  cs.foldl (fun acc c =>
    match acc, hexDigVal? c with
    | some n, some d => some (16 * n + d)
    | _, _ => none) (some 0)

/-- Embeds the hex backup decoder (METHOD B): when the stripped data has at
least 192 hex characters, read three consecutive 32-byte big-endian words
(weight, totalWeight, timestamp), and take the voter from topic 1 past its
first 26 characters when a second topic exists. -/
def hexBackup (log : RawItem) (st : VoteSt) : Option VoteSt :=
  let cs := dataHexOf log
  if 192 ≤ cs.length then
    match hexToNat? (cs.take 64), hexToNat? ((cs.drop 64).take 64),
        hexToNat? ((cs.drop 128).take 64) with
    | some wv, some twv, some tsv =>
      let voter2 :=
        if 1 < log.topics.length then
          "0x" ++ ((log.topics.getD 1 "").toList.drop 26).asString
        else st.voter
      some { st with w := (wv : ℚ), tw := (twv : ℚ), voter := voter2,
                     ets := some ((tsv : Nat) : Int), found := true }
    | _, _, _ => none
  else some st

/-- Embeds the fallback to the item timestamp string: ts_str =
log.get("timestamp") or log.get("block_timestamp"), dropped when falsy. -/
def isoFallback (log : RawItem) : Option PyDateTime :=
  match pyOrStr log.timestamp log.block_timestamp with
  | some s => if s = "" then none else pyParseTs s
  | none => none

/-- Embeds the timestamp resolution step: a truthy positive event timestamp
is read as an epoch second count (raising past the datetime range),
otherwise the item timestamp string is parsed. -/
def resolveInstant (log : RawItem) (ets : Option Int) : Option PyDateTime :=
  match ets with
  | some t =>
    if 0 < t then
      if t ≤ MAX_TS then some (fromtimestamp t) else none
    else isoFallback log
  | none => isoFallback log

/-- Embeds the tail of one vote-loop iteration after the decoded-parameter
pass: the hex backup when no weight was found, the timestamp resolution, the
found-and-positive filter, and the record construction. -/
def parseVoteCore (log : RawItem) (stA : VoteSt) : Option VoteRecord :=
  match (if stA.found then some stA else hexBackup log stA) with
  | none => none
  | some stB =>
    match resolveInstant log stB.ets with
    | none => none
    | some dt =>
      if stB.found ∧ 0 < stB.w then
        some ⟨dt.day, dt.secs, stB.w / (10 : ℚ) ^ DEFAULT_DECIMALS,
              stB.tw / (10 : ℚ) ^ DEFAULT_DECIMALS, stB.voter⟩
      else none

/-- Embeds one iteration of the vote loop of parse_data; none models both the
explicit continue statements, the filters, and any raised exception. -/
def parseVote (log : RawItem) : Option VoteRecord :=
  match log.topics with
  | [] => none
  | t0 :: _ =>
    if t0 ≠ VOTED_TOPIC_0 then none
    else
      match (match log.decoded with
             | some ps => foldParams ⟨0, 0, "Unknown", none, false⟩ ps
             | none => some ⟨0, 0, "Unknown", none, false⟩) with
      | none => none
      | some stA => parseVoteCore log stA

/-! ## Incremental fetcher -/

/-- Response to one page request: a successful page (its item list and
whether next_page_params were supplied) or a transport/decoding error. -/
inductive PageResp where
  | ok (items : List RawItem) (hasNext : Bool)
  | err
deriving DecidableEq

/-- State of the fetch loop while scanning one page: the set of known keys,
the accumulated new items, and the stop_fetching flag. -/
structure ScanSt where
  known : List String
  acc : List RawItem
  stop : Bool
deriving DecidableEq

/-- Embeds the inner per-item loop of fetch_incremental: a known key latches
the stop flag and the item is skipped, a fresh item is appended and its key
added to the known set. -/
def scanPage : ScanSt → List RawItem → ScanSt
  | st, [] => st
  | st, it :: its =>
    let uid := get_unique_id it
    if uid ∈ st.known then
      scanPage { st with stop := true } its
    else
      scanPage { known := uid :: st.known, acc := st.acc ++ [it], stop := st.stop } its

/-- Embeds the pagination loop of fetch_incremental over a trace of page
responses: an error or an empty page ends the loop, a page that latched the
stop flag ends the loop after being scanned in full, and the loop otherwise
continues while next-page parameters are supplied. -/
def fetchLoop : List PageResp → List String → List RawItem → List RawItem
  | [], _, acc => acc
  | PageResp.err :: _, _, acc => acc
  | PageResp.ok items hasNext :: rest, known, acc =>
    if items.isEmpty then acc
    else
      let st := scanPage ⟨known, acc, false⟩ items
      if st.stop then st.acc
      else if hasNext then fetchLoop rest st.known st.acc
      else st.acc

/-- Embeds fetch_incremental: the known-key set is seeded from the unique ids
of the existing items and the loop starts with an empty output buffer. -/
def fetch_incremental (trace : List PageResp) (existing : List RawItem) : List RawItem :=
  fetchLoop trace (existing.map get_unique_id) []

/-- Modelled from the words of the specification (section 4.2 step 3): scan
the page in order; a key already known marks caught-up and the item is not
emitted, a fresh key is emitted and added to the known set; scanning always
continues to the end of the page.  Returns (emitted items, final key set,
caught-up flag). -/
def specScan (known : List String) : List RawItem → List RawItem × List String × Bool
  | [] => ([], known, false)
  | it :: its =>
    let k := get_unique_id it
    if k ∈ known then
      let r := specScan known its
      (r.1, r.2.1, true)
    else
      let r := specScan (k :: known) its
      (it :: r.1, r.2.1, r.2.2)

/-! ## Aggregation (steps 4 to 6 of parse_data) -/

/-- Embeds sorted(list(set(l))): ascending list of the distinct values. -/
def sortDedupInt (l : List Int) : List Int :=
  (l.dedup).insertionSort (· ≤ ·)

/-- Embeds df_locks.groupby("date").agg(sum, count): one row per distinct
date in ascending order, carrying the amount sum and the row count. -/
def daily_locks (recs : List LockRecord) : List (Int × ℚ × Nat) :=
  (sortDedupInt (recs.map LockRecord.date)).map (fun d =>
    let g := recs.filter (fun r => decide (r.date = d))
    (d, (g.map LockRecord.amount).sum, g.length))

/-- Embeds df_votes.groupby("date").agg(sum, count). -/
def daily_votes (recs : List VoteRecord) : List (Int × ℚ × Nat) :=
  (sortDedupInt (recs.map VoteRecord.date)).map (fun d =>
    let g := recs.filter (fun r => decide (r.date = d))
    (d, (g.map VoteRecord.voting_power).sum, g.length))

/-- One row of the merged daily table df_main after both left joins and
fillna(0). -/
structure DailyRow where
  date : Int
  amount : ℚ
  lock_count : Nat
  voting_power : ℚ
  vote_count : Nat
deriving DecidableEq

/-- Left-join lookup of one date in a grouped table, with missing values
filled with zero. -/
def lookupDaily (d : Int) (tbl : List (Int × ℚ × Nat)) : ℚ × Nat :=
  match tbl.find? (fun row => decide (row.1 = d)) with
  | some row => (row.2.1, row.2.2)
  | none => (0, 0)

/-- Embeds the date-axis merge of parse_data: the sorted union of the dates
of both grouped tables, left-joined against each of them. -/
def df_main_rows (lrecs : List LockRecord) (vrecs : List VoteRecord) : List DailyRow :=
  let dl := daily_locks lrecs
  let dv := daily_votes vrecs
  let all_dates := sortDedupInt (dl.map Prod.fst ++ dv.map Prod.fst)
  all_dates.map (fun d =>
    let a := lookupDaily d dl
    let b := lookupDaily d dv
    ⟨d, a.1, a.2, b.1, b.2⟩)

/-- Running prefix sums starting from an accumulator. -/
def cumsumFrom (acc : ℚ) : List ℚ → List ℚ
  | [] => []
  | x :: xs => (acc + x) :: cumsumFrom (acc + x) xs

/-- Embeds the pandas cumsum column. -/
def cumsum (l : List ℚ) : List ℚ := cumsumFrom 0 l

/-- The five fixed buckets in ascending order. -/
def bucket_defs : List (String × Nat) :=
  [("< 0.001", 1), ("0.001 - 0.01", 2), ("0.01 - 0.1", 3), ("0.1 - 1", 4), ("1 and above", 5)]

/-- Embeds the distribution table: groupby (cat, order) with count and amount
sum, rows in ascending bucket order, empty buckets omitted.  (Every
LockRecord pairs cat and order through bucketOf, so grouping by the order
component alone groups by the pair.) -/
def dist_rows (recs : List LockRecord) : List (String × Nat × Nat × ℚ) :=
  bucket_defs.filterMap (fun b =>
    let g := recs.filter (fun r => decide (r.order = b.2))
    if g.isEmpty then none
    else some (b.1, b.2, g.length, (g.map LockRecord.amount).sum))

/-- The aggregate structures parse_data hands to the presentation boundary:
the merged daily rows, their two cumulative columns, and the distribution
table. -/
structure Outputs where
  main_rows : List DailyRow
  cum_locks : List ℚ
  cum_votes : List ℚ
  dist : List (String × Nat × Nat × ℚ)
deriving DecidableEq

/-- Embeds parse_data end to end on the two raw collections. -/
def parse_data (locks votes : List RawItem) : Outputs :=
  let l := locks.filterMap parseLock
  let v := votes.filterMap parseVote
  let rows := df_main_rows l v
  ⟨rows, cumsum (rows.map DailyRow.amount), cumsum (rows.map DailyRow.voting_power),
   dist_rows l⟩

/-! ## Orchestrator (the __main__ block) -/

/-- The persisted store: the two raw collections. -/
structure Store where
  locks : List RawItem
  votes : List RawItem
deriving DecidableEq

/-- Result of one pipeline run: the store after the run, whether save_data
was invoked, and the derived aggregates. -/
structure RunResult where
  store : Store
  saved : Bool
  outputs : Outputs
deriving DecidableEq

/-- Embeds the __main__ block: load, fetch both sources incrementally, merge
new-first, save only when either fetch returned nonempty, aggregate. -/
def run_pipeline (lockTrace voteTrace : List PageResp) (st : Store) : RunResult :=
  let new_locks := fetch_incremental lockTrace st.locks
  let new_votes := fetch_incremental voteTrace st.votes
  let all_locks := new_locks ++ st.locks
  let all_votes := new_votes ++ st.votes
  let saved := !(new_locks.isEmpty && new_votes.isEmpty)
  { store := if saved then ⟨all_locks, all_votes⟩ else st
    saved := saved
    outputs := parse_data all_locks all_votes }

/-! ## Concrete items used by witnesses and counterexamples -/

/-- A transfer-shaped raw item with key suffix a. -/
def itemA : RawItem := { blankItem with tx_hash := some "0xa" }

/-- A transfer-shaped raw item with key suffix b. -/
def itemB : RawItem := { blankItem with tx_hash := some "0xb" }

/-- A transfer-shaped raw item with key suffix c. -/
def itemC : RawItem := { blankItem with tx_hash := some "0xc" }

/-- A transfer-shaped raw item with key suffix d. -/
def itemD : RawItem := { blankItem with tx_hash := some "0xd" }

/-! ## Claim C5: bucket assignment is a total non-overlapping partition -/

/-- C5: for every non-negative amount, the bucket assignment satisfies the
five range characterizations (hence lies in exactly one bucket, the ranges
being pairwise disjoint and covering), and each boundary value belongs to
the higher bucket. -/
theorem c5_bucket_partition :
    (∀ q : ℚ, 0 ≤ q →
      ((bucketOf q = ("< 0.001", 1) ↔ q < 1/1000) ∧
       (bucketOf q = ("0.001 - 0.01", 2) ↔ 1/1000 ≤ q ∧ q < 1/100) ∧
       (bucketOf q = ("0.01 - 0.1", 3) ↔ 1/100 ≤ q ∧ q < 1/10) ∧
       (bucketOf q = ("0.1 - 1", 4) ↔ 1/10 ≤ q ∧ q < 1) ∧
       (bucketOf q = ("1 and above", 5) ↔ 1 ≤ q))) ∧
    bucketOf (1/1000) = ("0.001 - 0.01", 2) ∧ bucketOf (1/100) = ("0.01 - 0.1", 3) ∧
    bucketOf (1/10) = ("0.1 - 1", 4) ∧ bucketOf 1 = ("1 and above", 5) := by
  refine ⟨?_, by norm_num [bucketOf], by norm_num [bucketOf],
    by norm_num [bucketOf], by norm_num [bucketOf]⟩
  intro q hq
  unfold bucketOf
  split_ifs with h1 h2 h3 h4
  · exact ⟨iff_of_true rfl h1,
      iff_of_false (by decide) (by rintro ⟨a, b⟩; linarith),
      iff_of_false (by decide) (by rintro ⟨a, b⟩; linarith),
      iff_of_false (by decide) (by rintro ⟨a, b⟩; linarith),
      iff_of_false (by decide) (by intro a; linarith)⟩
  · have h1a := le_of_not_lt h1
    exact ⟨iff_of_false (by decide) (by intro a; linarith),
      iff_of_true rfl ⟨h1a, h2⟩,
      iff_of_false (by decide) (by rintro ⟨a, b⟩; linarith),
      iff_of_false (by decide) (by rintro ⟨a, b⟩; linarith),
      iff_of_false (by decide) (by intro a; linarith)⟩
  · have h2a := le_of_not_lt h2
    exact ⟨iff_of_false (by decide) (by intro a; linarith),
      iff_of_false (by decide) (by rintro ⟨a, b⟩; linarith),
      iff_of_true rfl ⟨h2a, h3⟩,
      iff_of_false (by decide) (by rintro ⟨a, b⟩; linarith),
      iff_of_false (by decide) (by intro a; linarith)⟩
  · have h3a := le_of_not_lt h3
    exact ⟨iff_of_false (by decide) (by intro a; linarith),
      iff_of_false (by decide) (by rintro ⟨a, b⟩; linarith),
      iff_of_false (by decide) (by rintro ⟨a, b⟩; linarith),
      iff_of_true rfl ⟨h3a, h4⟩,
      iff_of_false (by decide) (by intro a; linarith)⟩
  · have h4a := le_of_not_lt h4
    exact ⟨iff_of_false (by decide) (by intro a; linarith),
      iff_of_false (by decide) (by rintro ⟨a, b⟩; linarith),
      iff_of_false (by decide) (by rintro ⟨a, b⟩; linarith),
      iff_of_false (by decide) (by rintro ⟨a, b⟩; linarith),
      iff_of_true rfl h4a⟩

/-- C5 witness: the theorem applied at the concrete amount 5/1000. -/
theorem c5_bucket_partition_witness :
    (0 : ℚ) ≤ 5/1000 ∧
    (bucketOf (5/1000) = ("0.001 - 0.01", 2) ↔
      1/1000 ≤ (5/1000 : ℚ) ∧ (5/1000 : ℚ) < 1/100) :=
  ⟨by norm_num, (c5_bucket_partition.1 (5/1000) (by norm_num)).2.1⟩

/-! ## Claim C7: record identity -/

/-- The item refuting the literal first-present reading of the RecordKey
formula: tx_hash is present but empty. -/
def c7item : RawItem := { blankItem with tx_hash := some "", transaction_hash := some "0xabc" }

/-- C7 counterexample: on an item whose tx_hash is present but empty, the
code skips the falsy tx_hash and uses transaction_hash, while the claimed
first-present formula would use the empty tx_hash; the degenerate-key clause
itself holds on the all-absent item. -/
theorem c7_counterexample :
    specIdentify c7item = "_0" ∧ get_unique_id c7item = "0xabc_0" ∧
    get_unique_id c7item ≠ specIdentify c7item := by
  refine ⟨rfl, rfl, by decide⟩

/-- C7 amended: identify is pure and total, the transaction identifier is the
first of tx_hash, transaction_hash, hash holding a truthy (present and
non-empty) value — falling back to the hash field value itself when all are
falsy — the index is the first present of index, log_index defaulting to
"0", and the fully-absent item yields the degenerate key "None_0". -/
theorem c7_identify_amended :
    (∀ item : RawItem, get_unique_id item = specIdentifyAmended item) ∧
    get_unique_id blankItem = "None_0" := by
  refine ⟨?_, rfl⟩
  intro item
  rcases htx : item.tx_hash with _ | s1 <;>
  rcases hth : item.transaction_hash with _ | s2 <;>
    simp only [get_unique_id, specIdentifyAmended, firstTruthy, pyOrStr, pyTruthyStr,
      htx, hth] <;>
    split_ifs <;>
    simp_all [strOfOptStr]

/-! ## Lookup lemmas for the grouped daily tables -/

/-- find? with an equality predicate returns the sought element exactly when
it is present. -/
theorem find?_eq_self (d : Int) : ∀ l : List Int,
    l.find? (fun x => decide (x = d)) = if d ∈ l then some d else none := by
  intro l
  induction l with
  | nil => simp
  | cons x xs ih =>
    by_cases hx : x = d
    · subst hx; simp [List.find?]
    · simp [List.find?_cons, hx, ih, Ne.symm hx]

/-- Membership in the sorted deduplicated date axis. -/
theorem mem_sortDedupInt (d : Int) (l : List Int) : d ∈ sortDedupInt l ↔ d ∈ l := by
  unfold sortDedupInt
  rw [(List.perm_insertionSort _ _).mem_iff, List.mem_dedup]

/-- Left-join lookup against a table built over the sorted deduplicated date
axis: a present date yields its aggregate, an absent one yields zeros. -/
theorem lookupDaily_build (ds : List Int) (f : Int → ℚ) (g : Int → Nat) (d : Int) :
    lookupDaily d ((sortDedupInt ds).map (fun x => (x, f x, g x))) =
      if d ∈ ds then (f d, g d) else (0, 0) := by
  unfold lookupDaily
  rw [List.find?_map]
  have hc : ((fun (row : Int × ℚ × Nat) => decide (row.1 = d)) ∘ fun x => (x, f x, g x)) =
      fun x => decide (x = d) := rfl
  rw [hc, find?_eq_self]
  by_cases hd : d ∈ ds
  · simp [mem_sortDedupInt, hd]
  · simp [mem_sortDedupInt, hd]

/-- Lookup in the grouped lock table. -/
theorem lookupDaily_daily_locks (recs : List LockRecord) (d : Int) :
    lookupDaily d (daily_locks recs) =
      if d ∈ recs.map LockRecord.date
      then (((recs.filter (fun r => decide (r.date = d))).map LockRecord.amount).sum,
            (recs.filter (fun r => decide (r.date = d))).length)
      else (0, 0) :=
  lookupDaily_build (recs.map LockRecord.date)
    (fun d => ((recs.filter (fun r : LockRecord => decide (r.date = d))).map LockRecord.amount).sum)
    (fun d => (recs.filter (fun r : LockRecord => decide (r.date = d))).length) d

/-- Lookup in the grouped vote table. -/
theorem lookupDaily_daily_votes (recs : List VoteRecord) (d : Int) :
    lookupDaily d (daily_votes recs) =
      if d ∈ recs.map VoteRecord.date
      then (((recs.filter (fun r => decide (r.date = d))).map VoteRecord.voting_power).sum,
            (recs.filter (fun r => decide (r.date = d))).length)
      else (0, 0) :=
  lookupDaily_build (recs.map VoteRecord.date)
    (fun d => ((recs.filter (fun r : VoteRecord => decide (r.date = d))).map VoteRecord.voting_power).sum)
    (fun d => (recs.filter (fun r : VoteRecord => decide (r.date = d))).length) d

/-! ## Claim C6: self-transfers are dropped -/

/-- C6: a transfer item whose sender equals the contract address under
case-insensitive comparison yields no LockRecord, disappears from the
normalized output wherever it sits in the input, and leaves every derived
aggregate of parse_data unchanged. -/
theorem c6_self_transfer_dropped :
    ∀ (pre post votes : List RawItem) (tx : RawItem),
      pyLower (senderOf tx) = pyLower CONTRACT_ADDRESS →
      parseLock tx = none ∧
      (pre ++ tx :: post).filterMap parseLock = (pre ++ post).filterMap parseLock ∧
      parse_data (pre ++ tx :: post) votes = parse_data (pre ++ post) votes := by
  intro pre post votes tx h
  have h1 : parseLock tx = none := by
    unfold parseLock
    cases tx.timestamp with
    | none => rfl
    | some ts =>
      by_cases hts : ts = ""
      · simp [hts]
      · simp only [if_neg hts]
        cases pyParseTs ts with
        | none => rfl
        | some dt => simp [h]
  have h2 : (pre ++ tx :: post).filterMap parseLock = (pre ++ post).filterMap parseLock := by
    simp [List.filterMap_append, List.filterMap_cons, h1]
  exact ⟨h1, h2, by simp only [parse_data, h2]⟩

/-- A self-transfer item: its sender is the contract address uppercased. -/
def c6item : RawItem := { blankItem with
  tx_hash := some "0xself",
  timestamp := some "2026-01-02T03:04:05",
  fromField := some (FromField.fobj "0X3D4B1B884A7A1E59FE8589A3296EC8F8CBB6F279") }

/-- C6 witness: the theorem applied to a concrete self-transfer between two
other items. -/
theorem c6_self_transfer_dropped_witness :
    pyLower (senderOf c6item) = pyLower CONTRACT_ADDRESS ∧
    (parseLock c6item = none ∧
     ([itemA] ++ c6item :: [itemB]).filterMap parseLock =
       ([itemA] ++ [itemB]).filterMap parseLock ∧
     parse_data ([itemA] ++ c6item :: [itemB]) [] = parse_data ([itemA] ++ [itemB]) []) :=
  ⟨by decide, c6_self_transfer_dropped [itemA] [itemB] [] c6item (by decide)⟩

/-! ## Claim C10: a missing or null amount yields a zero-amount record -/

/-- The amount field is absent, bare null, or an object with an absent or
null value key. -/
def totalNullish (tx : RawItem) : Prop :=
  tx.total = none ∨ tx.total = some TotalField.tnull ∨ tx.total = some (TotalField.tobj none)

/-- C10: a transfer item with a valid timestamp, a non-contract sender and an
absent or null amount is kept as a LockRecord with amount 0 in the lowest
bucket, and it increments both the daily lock count of its day and the
transaction count of the lowest distribution bucket. -/
theorem c10_missing_amount_zero_bucket :
    ∀ (tx : RawItem) (ts : String) (dt : PyDateTime) (rest : List RawItem),
      tx.timestamp = some ts → ts ≠ "" → pyParseTs ts = some dt →
      pyLower (senderOf tx) ≠ pyLower CONTRACT_ADDRESS →
      totalNullish tx →
      parseLock tx = some ⟨dt.day, dt.secs, 0, senderOf tx, "< 0.001", 1⟩ ∧
      (tx :: rest).filterMap parseLock =
        ⟨dt.day, dt.secs, 0, senderOf tx, "< 0.001", 1⟩ :: rest.filterMap parseLock ∧
      (lookupDaily dt.day (daily_locks ((tx :: rest).filterMap parseLock))).2 =
        ((rest.filterMap parseLock).filter (fun r => decide (r.date = dt.day))).length + 1 ∧
      (dist_rows ((tx :: rest).filterMap parseLock)).head? =
        some ("< 0.001", 1,
          ((rest.filterMap parseLock).filter (fun r => decide (r.order = 1))).length + 1,
          (((rest.filterMap parseLock).filter (fun r => decide (r.order = 1))).map
            LockRecord.amount).sum) := by
  intro tx ts dt rest hts hne hparse hsender hnull
  have hamt : amountOf tx = 0 := by
    unfold amountOf
    rcases hnull with h | h | h <;> simp [h]
  have h1 : parseLock tx = some ⟨dt.day, dt.secs, 0, senderOf tx, "< 0.001", 1⟩ := by
    unfold parseLock
    rw [hts]
    simp only [if_neg hne, hparse, hamt]
    rw [if_neg hsender]
    norm_num [bucketOf]
  have h2 : (tx :: rest).filterMap parseLock =
      ⟨dt.day, dt.secs, 0, senderOf tx, "< 0.001", 1⟩ :: rest.filterMap parseLock := by
    simp [List.filterMap_cons, h1]
  refine ⟨h1, h2, ?_, ?_⟩
  · rw [h2, lookupDaily_daily_locks]
    simp [List.filter_cons]
  · rw [h2]
    simp [dist_rows, bucket_defs, List.filter_cons]

/-- A transfer item with a valid timestamp, an outside sender and no total
field at all. -/
def c10item : RawItem := { blankItem with
  tx_hash := some "0xz",
  timestamp := some "2026-01-02T03:04:05",
  fromField := some (FromField.fobj "0xsomeone") }

/-- C10 witness: the theorem applied to the concrete amount-less item. -/
theorem c10_missing_amount_zero_bucket_witness :
    c10item.timestamp = some "2026-01-02T03:04:05" ∧
    "2026-01-02T03:04:05" ≠ "" ∧
    pyParseTs "2026-01-02T03:04:05" = some ⟨20455, 1767323045⟩ ∧
    pyLower (senderOf c10item) ≠ pyLower CONTRACT_ADDRESS ∧
    totalNullish c10item ∧
    (parseLock c10item = some ⟨20455, 1767323045, 0, senderOf c10item, "< 0.001", 1⟩ ∧
     ([c10item] : List RawItem).filterMap parseLock =
       (⟨20455, 1767323045, 0, senderOf c10item, "< 0.001", 1⟩ : LockRecord) ::
         ([] : List RawItem).filterMap parseLock ∧
     (lookupDaily 20455 (daily_locks (([c10item] : List RawItem).filterMap parseLock))).2 =
       ((([] : List RawItem).filterMap parseLock).filter
         (fun r => decide (r.date = (20455 : Int)))).length + 1 ∧
     (dist_rows (([c10item] : List RawItem).filterMap parseLock)).head? =
       some ("< 0.001", 1,
         ((([] : List RawItem).filterMap parseLock).filter
           (fun r => decide (r.order = 1))).length + 1,
         (((([] : List RawItem).filterMap parseLock).filter
           (fun r => decide (r.order = 1))).map LockRecord.amount).sum)) :=
  ⟨rfl, by decide, by decide, by decide, Or.inl rfl,
   c10_missing_amount_zero_bucket c10item "2026-01-02T03:04:05" ⟨20455, 1767323045⟩ []
     rfl (by decide) (by decide) (by decide) (Or.inl rfl)⟩

/-! ## Fetch-loop lemmas -/

/-- The per-item page scan of the fetch loop computes exactly what the
specification scan computes: the same emitted items appended to the running
buffer, the same final key set, and a stop flag that is the latch of the
incoming flag with the caught-up flag. -/
theorem scanPage_spec : ∀ (items : List RawItem) (known : List String)
    (acc : List RawItem) (stop : Bool),
    scanPage ⟨known, acc, stop⟩ items =
      ⟨(specScan known items).2.1, acc ++ (specScan known items).1,
        stop || (specScan known items).2.2⟩ := by
  intro items
  induction items with
  | nil => intro known acc stop; simp [scanPage, specScan]
  | cons it its ih =>
    intro known acc stop
    simp only [scanPage, specScan]
    by_cases h : get_unique_id it ∈ known
    · simp [h, ih]
    · simp [h, ih]

/-- Scanning a page none of whose keys are known emits the whole page in
order and adds every key. -/
theorem scanPage_fresh : ∀ (items : List RawItem) (st : ScanSt),
    (∀ it ∈ items, get_unique_id it ∉ st.known) →
    ((items.map get_unique_id).Nodup) →
    scanPage st items =
      ⟨(items.map get_unique_id).reverse ++ st.known, st.acc ++ items, st.stop⟩ := by
  intro items
  induction items with
  | nil => intro st h1 h2; simp [scanPage]
  | cons it its ih =>
    intro st h1 h2
    have hk : get_unique_id it ∉ st.known := h1 it (List.mem_cons_self it its)
    simp only [scanPage, if_neg hk]
    rw [ih ⟨get_unique_id it :: st.known, st.acc ++ [it], st.stop⟩ ?fresh ?nodup]
    · simp [List.append_assoc]
    case fresh =>
      intro it2 hmem
      simp only [List.mem_cons]
      push_neg
      constructor
      · intro heq
        have : get_unique_id it ∈ its.map get_unique_id := by
          rw [← heq]; exact List.mem_map_of_mem _ hmem
        exact (List.nodup_cons.mp (by simpa using h2)).1 this
      · exact h1 it2 (List.mem_cons_of_mem _ hmem)
    case nodup => exact (List.nodup_cons.mp (by simpa using h2)).2

/-- The page scan distributes over list concatenation. -/
theorem scanPage_append : ∀ (l1 l2 : List RawItem) (st : ScanSt),
    scanPage st (l1 ++ l2) = scanPage (scanPage st l1) l2 := by
  intro l1
  induction l1 with
  | nil => intro l2 st; simp [scanPage]
  | cons it its ih =>
    intro l2 st
    simp only [List.cons_append, scanPage]
    by_cases h : get_unique_id it ∈ st.known
    · simp [h, ih]
    · simp [h, ih]

/-- Scanning a page containing exactly one already-known item emits the rest
of the page in order and latches the stop flag. -/
theorem scanPage_one_hit (pre post : List RawItem) (hit : RawItem) (st : ScanSt)
    (hfresh : ∀ it ∈ pre ++ post, get_unique_id it ∉ st.known)
    (hnodup : ((pre ++ hit :: post).map get_unique_id).Nodup)
    (hhit : get_unique_id hit ∈ st.known) :
    scanPage st (pre ++ hit :: post) =
      ⟨((pre ++ post).map get_unique_id).reverse ++ st.known,
        st.acc ++ (pre ++ post), true⟩ := by
  have hnd := hnodup
  rw [List.map_append, List.map_cons] at hnd
  rw [List.nodup_append] at hnd
  obtain ⟨hndpre, hndrest, hdisj⟩ := hnd
  have hndpost : (post.map get_unique_id).Nodup := (List.nodup_cons.mp hndrest).2
  rw [scanPage_append pre (hit :: post) st]
  rw [scanPage_fresh pre st (fun it h => hfresh it (List.mem_append_left _ h)) hndpre]
  simp only [scanPage]
  rw [if_pos (List.mem_append_right _ hhit)]
  rw [scanPage_fresh post _ ?fresh hndpost]
  · simp [List.map_append, List.reverse_append, List.append_assoc]
  case fresh =>
    intro it2 hmem
    simp only [List.mem_append, List.mem_reverse]
    push_neg
    constructor
    · intro hin
      exact hdisj hin (List.mem_cons_of_mem _ (List.mem_map_of_mem _ hmem))
    · exact hfresh it2 (List.mem_append_right _ hmem)

/-- A trace presenting the given pages in order: every page supplies
next-page parameters except the last. -/
def mkTrace : List (List RawItem) → List PageResp
  | [] => []
  | [p] => [PageResp.ok p false]
  | p :: q :: ps => PageResp.ok p true :: mkTrace (q :: ps)

/-- Feeding nonempty pages of pairwise fresh keys through the fetch loop
returns every item in original order. -/
theorem fetchLoop_mkTrace_fresh :
    ∀ (pages : List (List RawItem)) (known : List String) (acc : List RawItem),
      (∀ p ∈ pages, p ≠ []) →
      (∀ it ∈ pages.flatten, get_unique_id it ∉ known) →
      ((pages.flatten.map get_unique_id).Nodup) →
      fetchLoop (mkTrace pages) known acc = acc ++ pages.flatten := by
  intro pages
  induction pages with
  | nil => intro known acc _ _ _; simp [mkTrace, fetchLoop]
  | cons p ps ih =>
    intro known acc hne hfresh hnodup
    have hpne : p ≠ [] := hne p (List.mem_cons_self _ _)
    have hjoin : (p :: ps).flatten = p ++ ps.flatten := by simp [List.flatten]
    rw [hjoin] at hfresh hnodup
    rw [List.map_append, List.nodup_append] at hnodup
    obtain ⟨hnd1, hnd2, hdisj⟩ := hnodup
    have hscan := scanPage_fresh p ⟨known, acc, false⟩
      (fun it h => hfresh it (List.mem_append_left _ h)) hnd1
    cases ps with
    | nil =>
      simp only [mkTrace, fetchLoop]
      rw [if_neg (by simp [hpne]), hscan]
      simp [hjoin]
    | cons q qs =>
      simp only [mkTrace, fetchLoop]
      rw [if_neg (by simp [hpne]), hscan]
      simp only
      rw [ih ((p.map get_unique_id).reverse ++ known) (acc ++ p) ?hne2 ?hfresh2 hnd2]
      · simp [hjoin, List.append_assoc]
      case hne2 => exact fun r h => hne r (List.mem_cons_of_mem _ h)
      case hfresh2 =>
        intro it hmem
        simp only [List.mem_append, List.mem_reverse]
        push_neg
        constructor
        · intro hin
          exact hdisj hin (List.mem_map_of_mem _ hmem)
        · exact hfresh it (List.mem_append_right _ hmem)

/-! ## Claim C1: caught-up page scanning and stopping -/

/-- C1: for any page and known-key set, the fetch loop scans the page
exactly as the specification scan describes — keys computed in page order,
an already-known key marks caught-up while scanning continues and fresh
items keep being emitted and their keys added — and when caught-up was
marked the loop returns right after that page, requesting no further pages
regardless of what the rest of the trace holds. -/
theorem c1_caught_up_page_scan :
    ∀ (known : List String) (acc items : List RawItem)
      (hasNext : Bool) (rest rest2 : List PageResp),
      scanPage ⟨known, acc, false⟩ items =
        ⟨(specScan known items).2.1, acc ++ (specScan known items).1,
          (specScan known items).2.2⟩ ∧
      ((specScan known items).2.2 = true →
        fetchLoop (PageResp.ok items hasNext :: rest) known acc =
          acc ++ (specScan known items).1 ∧
        fetchLoop (PageResp.ok items hasNext :: rest) known acc =
          fetchLoop (PageResp.ok items hasNext :: rest2) known acc) := by
  intro known acc items hasNext rest rest2
  have hbase := scanPage_spec items known acc false
  rw [Bool.false_or] at hbase
  refine ⟨hbase, fun hcaught => ?_⟩
  have hnonnil : items ≠ [] := by
    intro hnil
    rw [hnil] at hcaught
    simp [specScan] at hcaught
  have hloop : ∀ r : List PageResp,
      fetchLoop (PageResp.ok items hasNext :: r) known acc =
        acc ++ (specScan known items).1 := by
    intro r
    unfold fetchLoop
    rw [if_neg (by simp [hnonnil]), hbase]
    simp [hcaught]
  exact ⟨hloop rest, (hloop rest).trans (hloop rest2).symm⟩

/-- C1 witness: the theorem applied to a page whose first item is already
known, followed by a further page that is never requested. -/
theorem c1_caught_up_page_scan_witness :
    (scanPage ⟨[get_unique_id itemA], [], false⟩ [itemA, itemB] =
      ⟨(specScan [get_unique_id itemA] [itemA, itemB]).2.1,
        [] ++ (specScan [get_unique_id itemA] [itemA, itemB]).1,
        (specScan [get_unique_id itemA] [itemA, itemB]).2.2⟩) ∧
    (fetchLoop [PageResp.ok [itemA, itemB] true, PageResp.ok [itemC] true]
        [get_unique_id itemA] [] =
      [] ++ (specScan [get_unique_id itemA] [itemA, itemB]).1 ∧
     fetchLoop [PageResp.ok [itemA, itemB] true, PageResp.ok [itemC] true]
        [get_unique_id itemA] [] =
      fetchLoop [PageResp.ok [itemA, itemB] true] [get_unique_id itemA] []) :=
  have h := c1_caught_up_page_scan [get_unique_id itemA] [] [itemA, itemB] true
    [PageResp.ok [itemC] true] []
  ⟨h.1, h.2 (by decide)⟩

/-! ## Claim C2: distinct-key pages, full fetch and seeded fetch -/

/-- A transfer-shaped raw item with the given transaction hash. -/
def mkItem (s : String) : RawItem := { blankItem with tx_hash := some s }

/-- C2 (amended): with pairwise distinct keys and an empty known set the
fetch returns every item of every page in original order; seeded with
exactly the key of the item at page 2 position 3, it returns all items of
the first two pages except that item — those preceding it and also the
remainder of page 2 after it — and stops after page 2. -/
theorem c2_distinct_pages :
    ∀ (p1 p2 : List RawItem) (rest : List (List RawItem)) (K : Nat),
      3 ≤ K →
      (∀ p ∈ p1 :: p2 :: rest, p.length = K) →
      (((p1 :: p2 :: rest).flatten.map get_unique_id).Nodup) →
      fetchLoop (mkTrace (p1 :: p2 :: rest)) [] [] = (p1 :: p2 :: rest).flatten ∧
      ∀ (h2 : 2 < p2.length),
        fetchLoop (mkTrace (p1 :: p2 :: rest)) [get_unique_id (p2.get ⟨2, h2⟩)] [] =
          p1 ++ p2.eraseIdx 2 := by
  intro p1 p2 rest K hK hlen hnodup
  have hne : ∀ p ∈ p1 :: p2 :: rest, p ≠ [] := by
    intro p hp hnil
    have := hlen p hp
    rw [hnil] at this
    simp at this
    omega
  constructor
  · exact fetchLoop_mkTrace_fresh (p1 :: p2 :: rest) [] [] hne (by simp) hnodup
  · intro h2
    have hflat : (p1 :: p2 :: rest).flatten = p1 ++ (p2 ++ rest.flatten) := by simp
    rw [hflat, List.map_append, List.map_append, List.nodup_append] at hnodup
    obtain ⟨hnd1, hndr, hdisj⟩ := hnodup
    rw [List.nodup_append] at hndr
    obtain ⟨hnd2, hnd3, hdisj23⟩ := hndr
    have hp1ne : p1 ≠ [] := hne p1 (List.mem_cons_self _ _)
    rcases p2 with _ | ⟨a, _ | ⟨b, _ | ⟨c, tl⟩⟩⟩
    · simp at h2
    · simp at h2
    · simp at h2
    have hget : (a :: b :: c :: tl).get ⟨2, h2⟩ = c := rfl
    rw [hget]
    have hcmem : get_unique_id c ∈ (a :: b :: c :: tl).map get_unique_id := by simp
    have hfresh1 : ∀ it ∈ p1, get_unique_id it ∉ [get_unique_id c] := by
      intro it hmem
      simp only [List.mem_singleton]
      intro heq
      exact hdisj (List.mem_map_of_mem _ hmem) (List.mem_append_left _ (heq ▸ hcmem))
    have hscan1 := scanPage_fresh p1 ⟨[get_unique_id c], [], false⟩ hfresh1 hnd1
    have hhead : mkTrace (p1 :: (a :: b :: c :: tl) :: rest) =
        PageResp.ok p1 true :: mkTrace ((a :: b :: c :: tl) :: rest) := rfl
    rw [hhead]
    simp only [fetchLoop]
    rw [if_neg (by simp [hp1ne]), hscan1]
    simp only
    obtain ⟨hn, more, hmk⟩ : ∃ hn more,
        mkTrace ((a :: b :: c :: tl) :: rest) =
          PageResp.ok (a :: b :: c :: tl) hn :: more := by
      cases rest with
      | nil => exact ⟨false, [], rfl⟩
      | cons r rs => exact ⟨true, mkTrace (r :: rs), rfl⟩
    rw [hmk]
    simp only [fetchLoop]
    rw [if_neg (by simp)]
    rw [List.map_cons, List.map_cons, List.map_cons, List.nodup_cons, List.nodup_cons,
      List.nodup_cons] at hnd2
    obtain ⟨hka, hkb, hkc, hndtl⟩ := hnd2
    have hsplit : a :: b :: c :: tl = [a, b] ++ c :: tl := rfl
    rw [hsplit]
    rw [scanPage_one_hit [a, b] tl c _ ?fresh ?nodup ?hit]
    · simp [List.eraseIdx]
    case fresh =>
      intro it hmem
      have hcases : it = a ∨ it = b ∨ it ∈ tl := by
        rcases List.mem_append.mp hmem with hm | hm
        · simp only [List.mem_cons, List.not_mem_nil, or_false] at hm
          rcases hm with h | h
          · exact Or.inl h
          · exact Or.inr (Or.inl h)
        · exact Or.inr (Or.inr hm)
      have hitp2 : get_unique_id it ∈ (a :: b :: c :: tl).map get_unique_id := by
        rcases hcases with rfl | rfl | hm
        · simp
        · simp
        · simp only [List.map_cons, List.mem_cons]
          exact Or.inr (Or.inr (Or.inr (List.mem_map_of_mem _ hm)))
      have hneqc : get_unique_id it ≠ get_unique_id c := by
        rcases hcases with rfl | rfl | hm
        · intro heq; exact hka (by rw [heq]; simp)
        · intro heq; exact hkb (by rw [heq]; simp)
        · intro heq; exact hkc (heq ▸ List.mem_map_of_mem _ hm)
      simp only [List.mem_append, List.mem_reverse, List.mem_singleton]
      push_neg
      refine ⟨?_, hneqc⟩
      intro hin
      exact hdisj hin (List.mem_append_left _ hitp2)
    case nodup =>
      rw [← hsplit]
      rw [List.map_cons, List.map_cons, List.map_cons, List.nodup_cons, List.nodup_cons,
        List.nodup_cons]
      exact ⟨hka, hkb, hkc, hndtl⟩
    case hit => simp

/-- First page of the concrete two-page source used against claim C2. -/
def c2page1 : List RawItem := [mkItem "0x1", mkItem "0x2", mkItem "0x3", mkItem "0x4"]

/-- Second page of the concrete two-page source used against claim C2. -/
def c2page2 : List RawItem := [mkItem "0x5", mkItem "0x6", mkItem "0x7", mkItem "0x8"]

/-- C2 counterexample: with the key of page 2 position 3 known, the fetch
also returns the item after the known one within page 2, so the result is
not the items preceding the known item. -/
theorem c2_counterexample :
    fetchLoop (mkTrace [c2page1, c2page2]) [get_unique_id (mkItem "0x7")] [] =
      c2page1 ++ [mkItem "0x5", mkItem "0x6", mkItem "0x8"] ∧
    c2page1 ++ [mkItem "0x5", mkItem "0x6", mkItem "0x8"] ≠
      c2page1 ++ [mkItem "0x5", mkItem "0x6"] := by
  constructor
  · decide
  · decide

/-- C2 witness: the amended theorem applied to the concrete two-page
source with four distinct-keyed items per page. -/
theorem c2_distinct_pages_witness :
    ((∀ p ∈ [c2page1, c2page2], p.length = 4) ∧
      ((([c2page1, c2page2] : List (List RawItem)).flatten.map get_unique_id).Nodup)) ∧
    fetchLoop (mkTrace [c2page1, c2page2]) [] [] =
      ([c2page1, c2page2] : List (List RawItem)).flatten ∧
    fetchLoop (mkTrace [c2page1, c2page2])
        [get_unique_id (c2page2.get ⟨2, by decide⟩)] [] =
      c2page1 ++ c2page2.eraseIdx 2 :=
  have h := c2_distinct_pages c2page1 c2page2 [] 4 (by decide) (by decide) (by decide)
  ⟨⟨by decide, by decide⟩, h.1, h.2 (by decide)⟩

/-! ## Claim C8: transport errors abort the fetch with partial progress -/

/-- A prefix of the trace is consumed cleanly: every page is a nonempty ok
page with next-page parameters that does not latch the stop flag. -/
def cleanPages : List String → List PageResp → Bool
  | _, [] => true
  | known, PageResp.ok items true :: rest =>
    !items.isEmpty && !(scanPage ⟨known, [], false⟩ items).stop &&
      cleanPages (scanPage ⟨known, [], false⟩ items).known rest
  | _, PageResp.ok _ false :: _ => false
  | _, PageResp.err :: _ => false

/-- Items accumulated from a trace prefix of ok pages. -/
def pagesNew : List String → List PageResp → List RawItem
  | _, [] => []
  | known, PageResp.ok items _ :: rest =>
    (scanPage ⟨known, [], false⟩ items).acc ++
      pagesNew (scanPage ⟨known, [], false⟩ items).known rest
  | _, PageResp.err :: _ => []

/-- After a cleanly consumed prefix, an error response makes the loop return
exactly the items accumulated so far. -/
theorem fetchLoop_clean_err :
    ∀ (pre : List PageResp) (known : List String) (acc : List RawItem)
      (rest : List PageResp),
      cleanPages known pre = true →
      fetchLoop (pre ++ PageResp.err :: rest) known acc = acc ++ pagesNew known pre := by
  intro pre
  induction pre with
  | nil => intro known acc rest _; simp [fetchLoop, pagesNew]
  | cons pg pre ih =>
    intro known acc rest hclean
    cases pg with
    | err => simp [cleanPages] at hclean
    | ok items hn =>
      cases hn with
      | false => simp [cleanPages] at hclean
      | true =>
        simp only [cleanPages, Bool.and_eq_true, Bool.not_eq_true'] at hclean
        obtain ⟨⟨h1, h2⟩, h3⟩ := hclean
        have hbase := scanPage_spec items known [] false
        rw [Bool.false_or] at hbase
        have hacc := scanPage_spec items known acc false
        rw [Bool.false_or] at hacc
        simp only [List.cons_append, fetchLoop]
        rw [if_neg (by simp [h1]), hacc]
        have hstop : (specScan known items).2.2 = false := by
          rw [hbase] at h2
          exact h2
        simp only [hstop, Bool.false_eq_true, if_false, if_true, List.append_eq]
        rw [ih _ _ rest (by rw [hbase] at h3; exact h3)]
        simp only [pagesNew, hbase]
        simp [List.append_assoc]

/-- C8: when a page request errors after a cleanly consumed prefix, the
fetch loop aborts at that point, returns exactly the items accumulated from
the pages processed before the error, and never retries — the responses
behind the error are irrelevant. -/
theorem c8_error_aborts_fetch :
    ∀ (pre rest rest2 : List PageResp) (known : List String) (acc : List RawItem),
      cleanPages known pre = true →
      fetchLoop (pre ++ PageResp.err :: rest) known acc = acc ++ pagesNew known pre ∧
      fetchLoop (pre ++ PageResp.err :: rest) known acc =
        fetchLoop (pre ++ PageResp.err :: rest2) known acc := by
  intro pre rest rest2 known acc hclean
  exact ⟨fetchLoop_clean_err pre known acc rest hclean,
    (fetchLoop_clean_err pre known acc rest hclean).trans
      (fetchLoop_clean_err pre known acc rest2 hclean).symm⟩

/-- C8 witness: the theorem applied to one good page followed by an error
and an unreachable further page. -/
theorem c8_error_aborts_fetch_witness :
    cleanPages [] [PageResp.ok [itemA] true] = true ∧
    (fetchLoop ([PageResp.ok [itemA] true] ++ PageResp.err :: [PageResp.ok [itemB] true])
        [] [] = [] ++ pagesNew [] [PageResp.ok [itemA] true] ∧
     fetchLoop ([PageResp.ok [itemA] true] ++ PageResp.err :: [PageResp.ok [itemB] true])
        [] [] =
      fetchLoop ([PageResp.ok [itemA] true] ++ PageResp.err :: []) [] []) :=
  ⟨by decide, c8_error_aborts_fetch [PageResp.ok [itemA] true] [PageResp.ok [itemB] true]
    [] [] [] (by decide)⟩

/-! ## Claim C9: a run with no new data changes nothing -/

/-- The aggregates a run hands over are always those of the collections its
resulting store holds: when anything new arrived the merged collections were
saved, and otherwise the merged collections equal the prior store. -/
theorem run_pipeline_outputs_eq (lt vt : List PageResp) (st : Store) :
    (run_pipeline lt vt st).outputs =
      parse_data (run_pipeline lt vt st).store.locks (run_pipeline lt vt st).store.votes := by
  unfold run_pipeline
  by_cases hl : (fetch_incremental lt st.locks).isEmpty
  · by_cases hv : (fetch_incremental vt st.votes).isEmpty
    · simp only [hl, hv, Bool.and_self, Bool.not_true, if_false]
      rw [List.isEmpty_iff] at hl hv
      simp [hl, hv]
    · simp [hl, hv]
  · simp [hl]

/-- C9: starting from the store left by any previous run, a run in which
both incremental fetches return no new records performs no save, leaves the
persisted store unchanged, and produces aggregates identical to those of the
previous run. -/
theorem c9_no_new_data_idempotent :
    ∀ (st : Store) (lt1 vt1 lt2 vt2 : List PageResp),
      fetch_incremental lt2 (run_pipeline lt1 vt1 st).store.locks = [] →
      fetch_incremental vt2 (run_pipeline lt1 vt1 st).store.votes = [] →
      (run_pipeline lt2 vt2 (run_pipeline lt1 vt1 st).store).saved = false ∧
      (run_pipeline lt2 vt2 (run_pipeline lt1 vt1 st).store).store =
        (run_pipeline lt1 vt1 st).store ∧
      (run_pipeline lt2 vt2 (run_pipeline lt1 vt1 st).store).outputs =
        (run_pipeline lt1 vt1 st).outputs := by
  intro st lt1 vt1 lt2 vt2 hl hv
  have houts := run_pipeline_outputs_eq lt1 vt1 st
  set s1 := (run_pipeline lt1 vt1 st).store with hs1
  refine ⟨?_, ?_, ?_⟩
  · unfold run_pipeline
    simp [hl, hv]
  · unfold run_pipeline
    simp [hl, hv]
  · rw [houts]
    unfold run_pipeline
    simp [hl, hv]

/-- C9 witness: the theorem applied to a concrete one-item store whose
second run sees only a failing lock source and an exhausted vote source. -/
theorem c9_no_new_data_idempotent_witness :
    fetch_incremental [PageResp.err] (run_pipeline [] [] ⟨[itemA], []⟩).store.locks = [] ∧
    fetch_incremental [] (run_pipeline [] [] ⟨[itemA], []⟩).store.votes = [] ∧
    ((run_pipeline [PageResp.err] [] (run_pipeline [] [] ⟨[itemA], []⟩).store).saved = false ∧
     (run_pipeline [PageResp.err] [] (run_pipeline [] [] ⟨[itemA], []⟩).store).store =
       (run_pipeline [] [] ⟨[itemA], []⟩).store ∧
     (run_pipeline [PageResp.err] [] (run_pipeline [] [] ⟨[itemA], []⟩).store).outputs =
       (run_pipeline [] [] ⟨[itemA], []⟩).outputs) :=
  ⟨by decide, by decide,
   c9_no_new_data_idempotent ⟨[itemA], []⟩ [] [] [PageResp.err] [] (by decide) (by decide)⟩


/-! ## Claim C3: merged daily aggregation -/

/-- The date axis is strictly sorted. -/
theorem sortDedupInt_sorted (l : List Int) : (sortDedupInt l).Sorted (· < ·) := by
  have hle : (sortDedupInt l).Sorted (· ≤ ·) := List.sorted_insertionSort _ _
  have hnd : (sortDedupInt l).Nodup :=
    (List.perm_insertionSort _ _).nodup_iff.mpr (List.nodup_dedup l)
  exact (hle.and hnd).imp (fun h => lt_of_le_of_ne h.1 h.2)

/-- Each entry of the running-sum column is the sum of the prefix up to and
including its position. -/
theorem cumsumFrom_get? : ∀ (l : List ℚ) (acc : ℚ) (i : Nat),
    (cumsumFrom acc l).get? i =
      if i < l.length then some (acc + (l.take (i+1)).sum) else none := by
  intro l
  induction l with
  | nil => intro acc i; simp [cumsumFrom]
  | cons x xs ih =>
    intro acc i
    cases i with
    | zero => simp [cumsumFrom]
    | succ i =>
      simp only [cumsumFrom, List.get?_cons_succ, ih (acc + x) i, List.length_cons,
        List.take_succ_cons, List.sum_cons]
      by_cases hi : i < xs.length
      · rw [if_pos hi, if_pos (by omega)]
        rw [add_assoc]
      · rw [if_neg hi, if_neg (by omega)]

/-- The last entry of the running-sum column is the total. -/
theorem cumsumFrom_getLast? : ∀ (l : List ℚ) (acc : ℚ), l ≠ [] →
    (cumsumFrom acc l).getLast? = some (acc + l.sum) := by
  intro l
  induction l with
  | nil => intro acc h; exact absurd rfl h
  | cons x xs ih =>
    intro acc _
    cases xs with
    | nil => simp [cumsumFrom]
    | cons y ys =>
      have htl : cumsumFrom (acc + x) (y :: ys) = (acc + x + y) :: cumsumFrom (acc + x + y) ys := rfl
      rw [show cumsumFrom acc (x :: y :: ys) = (acc + x) :: cumsumFrom (acc + x) (y :: ys) from rfl]
      rw [htl, List.getLast?_cons_cons, ← htl, ih (acc + x) (by simp)]
      simp [add_assoc]

/-- Mapping a projection over a build recovers the key list. -/
theorem map_build_proj {α : Type} (build : Int → α) (proj : α → Int)
    (h : ∀ d, proj (build d) = d) : ∀ ds : List Int, (ds.map build).map proj = ds := by
  intro ds
  induction ds with
  | nil => rfl
  | cons d ds ih => simp [h, ih]

/-- The date column of the grouped lock table. -/
theorem daily_locks_dates (l : List LockRecord) :
    (daily_locks l).map Prod.fst = sortDedupInt (l.map LockRecord.date) := by
  unfold daily_locks
  exact map_build_proj _ _ (fun d => rfl) _

/-- The date column of the grouped vote table. -/
theorem daily_votes_dates (v : List VoteRecord) :
    (daily_votes v).map Prod.fst = sortDedupInt (v.map VoteRecord.date) := by
  unfold daily_votes
  exact map_build_proj _ _ (fun d => rfl) _

/-- The date column of the merged table is the sorted union of the grouped
date columns. -/
theorem df_main_rows_dates (l : List LockRecord) (v : List VoteRecord) :
    (df_main_rows l v).map DailyRow.date =
      sortDedupInt ((daily_locks l).map Prod.fst ++ (daily_votes v).map Prod.fst) := by
  unfold df_main_rows
  exact map_build_proj _ _ (fun d => rfl) _

/-- C3: the merged daily table carries exactly the union of the dates of
both record collections, sorted strictly ascending; a day absent from one
source contributes zero to the columns of that source; the cumulative columns are
prefix sums in date order; and at the last date the cumulative value equals
the sum of the whole daily column, for locks and votes alike. -/
theorem c3_daily_merge_cumulative :
    ∀ (lrecs : List LockRecord) (vrecs : List VoteRecord),
      List.Sorted (· < ·) ((df_main_rows lrecs vrecs).map DailyRow.date) ∧
      (∀ d : Int, d ∈ (df_main_rows lrecs vrecs).map DailyRow.date ↔
        ((∃ r ∈ lrecs, r.date = d) ∨ (∃ v ∈ vrecs, v.date = d))) ∧
      (∀ row ∈ df_main_rows lrecs vrecs,
        (∀ r ∈ lrecs, r.date ≠ row.date) → row.amount = 0 ∧ row.lock_count = 0) ∧
      (∀ row ∈ df_main_rows lrecs vrecs,
        (∀ v ∈ vrecs, v.date ≠ row.date) → row.voting_power = 0 ∧ row.vote_count = 0) ∧
      (∀ i : Nat,
        (cumsum ((df_main_rows lrecs vrecs).map DailyRow.amount)).get? i =
          if i < (df_main_rows lrecs vrecs).length
          then some ((((df_main_rows lrecs vrecs).map DailyRow.amount).take (i+1)).sum)
          else none) ∧
      (df_main_rows lrecs vrecs ≠ [] →
        (cumsum ((df_main_rows lrecs vrecs).map DailyRow.amount)).getLast? =
          some (((df_main_rows lrecs vrecs).map DailyRow.amount).sum) ∧
        (cumsum ((df_main_rows lrecs vrecs).map DailyRow.voting_power)).getLast? =
          some (((df_main_rows lrecs vrecs).map DailyRow.voting_power).sum)) := by
  intro lrecs vrecs
  refine ⟨?_, ?_, ?_, ?_, ?_, ?_⟩
  · rw [df_main_rows_dates]
    exact sortDedupInt_sorted _
  · intro d
    rw [df_main_rows_dates, mem_sortDedupInt, List.mem_append,
      daily_locks_dates, daily_votes_dates, mem_sortDedupInt, mem_sortDedupInt]
    constructor
    · rintro (h | h)
      · exact Or.inl (by simpa [List.mem_map, eq_comm] using h)
      · exact Or.inr (by simpa [List.mem_map, eq_comm] using h)
    · rintro (h | h)
      · exact Or.inl (by simpa [List.mem_map, eq_comm] using h)
      · exact Or.inr (by simpa [List.mem_map, eq_comm] using h)
  · intro row hrow hnone
    unfold df_main_rows at hrow
    rw [List.mem_map] at hrow
    obtain ⟨d, hd, hbuild⟩ := hrow
    have hdate : row.date = d := by rw [← hbuild]
    have hnotin : d ∉ lrecs.map LockRecord.date := by
      rw [List.mem_map]
      rintro ⟨r, hr, hrd⟩
      exact hnone r hr (by rw [hdate, hrd])
    have hlook := lookupDaily_daily_locks lrecs d
    rw [if_neg hnotin] at hlook
    constructor
    · rw [← hbuild]
      simp [hlook]
    · rw [← hbuild]
      simp [hlook]
  · intro row hrow hnone
    unfold df_main_rows at hrow
    rw [List.mem_map] at hrow
    obtain ⟨d, hd, hbuild⟩ := hrow
    have hdate : row.date = d := by rw [← hbuild]
    have hnotin : d ∉ vrecs.map VoteRecord.date := by
      rw [List.mem_map]
      rintro ⟨r, hr, hrd⟩
      exact hnone r hr (by rw [hdate, hrd])
    have hlook := lookupDaily_daily_votes vrecs d
    rw [if_neg hnotin] at hlook
    constructor
    · rw [← hbuild]
      simp [hlook]
    · rw [← hbuild]
      simp [hlook]
  · intro i
    rw [cumsum, cumsumFrom_get?]
    simp
  · intro hne
    have h1 : (df_main_rows lrecs vrecs).map DailyRow.amount ≠ [] := by
      simpa using hne
    have h2 : (df_main_rows lrecs vrecs).map DailyRow.voting_power ≠ [] := by
      simpa using hne
    constructor
    · rw [cumsum, cumsumFrom_getLast? _ _ h1, zero_add]
    · rw [cumsum, cumsumFrom_getLast? _ _ h2, zero_add]

/-- A concrete lock record used by the C3 witness. -/
def c3lock : LockRecord := ⟨10, 900000, 2, "0xabc", "1 and above", 5⟩

/-- A concrete vote record used by the C3 witness. -/
def c3vote : VoteRecord := ⟨12, 1000000, 5, 100, "0xv"⟩

/-- C3 witness: the theorem applied to one lock record and one vote record
on different days, with the nonemptiness hypothesis discharged. -/
theorem c3_daily_merge_cumulative_witness :
    List.Sorted (· < ·) ((df_main_rows [c3lock] [c3vote]).map DailyRow.date) ∧
    ((cumsum ((df_main_rows [c3lock] [c3vote]).map DailyRow.amount)).getLast? =
       some (((df_main_rows [c3lock] [c3vote]).map DailyRow.amount).sum) ∧
     (cumsum ((df_main_rows [c3lock] [c3vote]).map DailyRow.voting_power)).getLast? =
       some (((df_main_rows [c3lock] [c3vote]).map DailyRow.voting_power).sum)) :=
  have h := c3_daily_merge_cumulative [c3lock] [c3vote]
  ⟨h.1, h.2.2.2.2.2 (by decide)⟩


/-! ## Claim C4: vote production rule -/

/-- Value of the last parameter with the given name (the decoded loop
overwrites on every match, so the last occurrence wins). -/
def lastNamed (nm : String) : List VParam → Option PVal
  | [] => none
  | p :: ps =>
    match lastNamed nm ps with
    | some v => some v
    | none => if p.name = nm then some p.value else none

/-- Modelled from the specification words: a weight named parameter is
present among the decoded parameters. -/
def specFoundDecoded (log : RawItem) : Bool :=
  match log.decoded with
  | some ps => (lastNamed "weight" ps).isSome
  | none => false

/-- Modelled from the specification words: the stripped data field offers
the three consecutive 32-byte words of the hex fallback. -/
def specHexAvail (log : RawItem) : Bool :=
  decide (192 ≤ (dataHexOf log).length)

/-- Modelled from the specification words: the weight value, taken from the
decoded parameters when a weight named parameter is present, otherwise from
fixed-offset hex decoding of the data field. -/
def specWeight (log : RawItem) : Option ℚ :=
  if specFoundDecoded log then
    match log.decoded with
    | some ps => (lastNamed "weight" ps).bind pyFloat
    | none => none
  else if specHexAvail log then
    (hexToNat? ((dataHexOf log).take 64)).map (fun n => (n : ℚ))
  else none

/-- Modelled from the specification words: the decoded or hex event
timestamp the resolution step prefers. -/
def specEts (log : RawItem) : Option Int :=
  if !(specFoundDecoded log) && specHexAvail log then
    (hexToNat? (((dataHexOf log).drop 128).take 64)).map (fun n => (n : Int))
  else
    match log.decoded with
    | some ps => (lastNamed "timestamp" ps).bind pyInt
    | none => none

/-- Resolvability of an event instant given a candidate event timestamp: a
positive in-range epoch count, or a parseable item timestamp string. -/
def specResolvableAux (log : RawItem) (e : Option Int) : Bool :=
  match e with
  | some t => if 0 < t then decide (t ≤ MAX_TS) else (isoFallback log).isSome
  | none => (isoFallback log).isSome

/-- Modelled from the specification words: an event instant is resolvable
for the item. -/
def specResolvable (log : RawItem) : Bool :=
  specResolvableAux log (specEts log)

/-- The item decodes without raising: every decoded parameter named weight
or totalWeight converts by float and every timestamp parameter by int, and
when the hex fallback would be consulted its three words are valid hex. -/
def cleanItem (log : RawItem) : Prop :=
  (∀ ps, log.decoded = some ps → ∀ p ∈ ps,
    ((p.name = "weight" ∨ p.name = "totalWeight") → (pyFloat p.value).isSome = true) ∧
    (p.name = "timestamp" → (pyInt p.value).isSome = true)) ∧
  (specFoundDecoded log = false → specHexAvail log = true →
    (hexToNat? ((dataHexOf log).take 64)).isSome = true ∧
    (hexToNat? (((dataHexOf log).drop 64).take 64)).isSome = true ∧
    (hexToNat? (((dataHexOf log).drop 128).take 64)).isSome = true)

/-- The timestamp resolution step succeeds exactly when the instant is
resolvable. -/
theorem resolveInstant_isSome (log : RawItem) (e : Option Int) :
    (resolveInstant log e).isSome = specResolvableAux log e := by
  unfold resolveInstant specResolvableAux
  cases e with
  | none => rfl
  | some t =>
    by_cases ht : 0 < t
    · by_cases hm : t ≤ MAX_TS <;> simp [ht, hm]
    · simp [ht]

/-- Unfolding equation of lastNamed. -/
theorem lastNamed_cons (nm : String) (p : VParam) (ps : List VParam) :
    lastNamed nm (p :: ps) =
      match lastNamed nm ps with
      | some v => some v
      | none => if p.name = nm then some p.value else none := rfl

/-- A parameter with a different name does not affect lastNamed. -/
theorem lastNamed_cons_ne (nm : String) (p : VParam) (ps : List VParam)
    (h : p.name ≠ nm) : lastNamed nm (p :: ps) = lastNamed nm ps := by
  rw [lastNamed_cons]
  cases h2 : lastNamed nm ps <;> simp [h, h2]

/-- When the decoded-parameter loop completes without raising, its final
state is characterized by the last weight and timestamp parameters. -/
theorem foldParams_char : ∀ (ps : List VParam) (st st2 : VoteSt),
    foldParams st ps = some st2 →
    (st2.found = (st.found || (lastNamed "weight" ps).isSome)) ∧
    (lastNamed "weight" ps = none → st2.w = st.w) ∧
    (∀ v, lastNamed "weight" ps = some v → pyFloat v = some st2.w) ∧
    (lastNamed "timestamp" ps = none → st2.ets = st.ets) ∧
    (∀ v, lastNamed "timestamp" ps = some v → ∃ t, pyInt v = some t ∧ st2.ets = some t) := by
  intro ps
  induction ps with
  | nil =>
    intro st st2 h
    simp only [foldParams, Option.some.injEq] at h
    subst h
    refine ⟨by simp [lastNamed], fun _ => rfl, ?_, fun _ => rfl, ?_⟩
    · intro v hv; simp [lastNamed] at hv
    · intro v hv; simp [lastNamed] at hv
  | cons p ps ih =>
    intro st st2 h
    rw [show foldParams st (p :: ps) =
        (match stepParam st p with
         | some st3 => foldParams st3 ps
         | none => none) from rfl] at h
    cases hs : stepParam st p with
    | none => rw [hs] at h; simp at h
    | some st3 =>
      rw [hs] at h
      obtain ⟨ihf, ihwn, ihws, ihen, ihes⟩ := ih st3 st2 h
      by_cases hw1 : p.name = "weight"
      · have hs3 := hs
        simp only [stepParam, if_pos hw1] at hs3
        cases hpv : pyFloat p.value with
        | none => rw [hpv] at hs3; simp at hs3
        | some q =>
          rw [hpv] at hs3
          simp only [Option.some.injEq] at hs3
          subst hs3
          refine ⟨?_, ?_, ?_, ?_, ?_⟩
          · rw [ihf, lastNamed_cons]
            cases hl : lastNamed "weight" ps <;> simp [hw1]
          · intro hn
            rw [lastNamed_cons] at hn
            cases hl : lastNamed "weight" ps <;> simp [hl, hw1] at hn
          · intro v hv
            rw [lastNamed_cons] at hv
            cases hl : lastNamed "weight" ps with
            | some v2 =>
              rw [hl] at hv
              simp only [Option.some.injEq] at hv
              subst hv
              exact ihws v2 hl
            | none =>
              rw [hl] at hv
              simp only [if_pos hw1, Option.some.injEq] at hv
              subst hv
              rw [hpv, ihwn hl]
          · intro hn
            rw [lastNamed_cons_ne "timestamp" p ps (by rw [hw1]; decide)] at hn
            exact ihen hn
          · intro v hv
            rw [lastNamed_cons_ne "timestamp" p ps (by rw [hw1]; decide)] at hv
            exact ihes v hv
      · by_cases ht1 : p.name = "totalWeight"
        · have hs3 := hs
          simp only [stepParam, if_neg hw1, if_pos ht1] at hs3
          cases hpv : pyFloat p.value with
          | none => rw [hpv] at hs3; simp at hs3
          | some q =>
            rw [hpv] at hs3
            simp only [Option.some.injEq] at hs3
            subst hs3
            have hnw : lastNamed "weight" (p :: ps) = lastNamed "weight" ps :=
              lastNamed_cons_ne _ _ _ (by rw [ht1]; decide)
            have hnt : lastNamed "timestamp" (p :: ps) = lastNamed "timestamp" ps :=
              lastNamed_cons_ne _ _ _ (by rw [ht1]; decide)
            exact ⟨by rw [ihf, hnw], fun hn => ihwn (hnw ▸ hn),
              fun v hv => ihws v (hnw ▸ hv), fun hn => ihen (hnt ▸ hn),
              fun v hv => ihes v (hnt ▸ hv)⟩
        · by_cases hv1 : p.name = "voter"
          · have hs3 := hs
            simp only [stepParam, if_neg hw1, if_neg ht1, if_pos hv1,
              Option.some.injEq] at hs3
            subst hs3
            have hnw : lastNamed "weight" (p :: ps) = lastNamed "weight" ps :=
              lastNamed_cons_ne _ _ _ (by rw [hv1]; decide)
            have hnt : lastNamed "timestamp" (p :: ps) = lastNamed "timestamp" ps :=
              lastNamed_cons_ne _ _ _ (by rw [hv1]; decide)
            exact ⟨by rw [ihf, hnw], fun hn => ihwn (hnw ▸ hn),
              fun v hv => ihws v (hnw ▸ hv), fun hn => ihen (hnt ▸ hn),
              fun v hv => ihes v (hnt ▸ hv)⟩
          · by_cases hts1 : p.name = "timestamp"
            · have hs3 := hs
              simp only [stepParam, if_neg hw1, if_neg ht1, if_neg hv1, if_pos hts1] at hs3
              cases hpt : pyInt p.value with
              | none => rw [hpt] at hs3; simp at hs3
              | some t =>
                rw [hpt] at hs3
                simp only [Option.some.injEq] at hs3
                subst hs3
                have hnw : lastNamed "weight" (p :: ps) = lastNamed "weight" ps :=
                  lastNamed_cons_ne _ _ _ (by rw [hts1]; decide)
                refine ⟨by rw [ihf, hnw], fun hn => ihwn (hnw ▸ hn),
                  fun v hv => ihws v (hnw ▸ hv), ?_, ?_⟩
                · intro hn
                  rw [lastNamed_cons] at hn
                  cases hl : lastNamed "timestamp" ps <;> simp [hl, hts1] at hn
                · intro v hv
                  rw [lastNamed_cons] at hv
                  cases hl : lastNamed "timestamp" ps with
                  | some v2 =>
                    rw [hl] at hv
                    simp only [Option.some.injEq] at hv
                    subst hv
                    exact ihes v2 hl
                  | none =>
                    rw [hl] at hv
                    simp only [if_pos hts1, Option.some.injEq] at hv
                    subst hv
                    exact ⟨t, hpt, ihen hl⟩
            · have hs3 := hs
              simp only [stepParam, if_neg hw1, if_neg ht1, if_neg hv1, if_neg hts1,
                Option.some.injEq] at hs3
              subst hs3
              have hnw : lastNamed "weight" (p :: ps) = lastNamed "weight" ps :=
                lastNamed_cons_ne _ _ _ hw1
              have hnt : lastNamed "timestamp" (p :: ps) = lastNamed "timestamp" ps :=
                lastNamed_cons_ne _ _ _ hts1
              exact ⟨by rw [ihf, hnw], fun hn => ihwn (hnw ▸ hn),
                fun v hv => ihws v (hnw ▸ hv), fun hn => ihen (hnt ▸ hn),
                fun v hv => ihes v (hnt ▸ hv)⟩

/-- On cleanly decodable parameters the decoded-parameter loop completes. -/
theorem foldParams_clean_some : ∀ (ps : List VParam) (st : VoteSt),
    (∀ p ∈ ps,
      ((p.name = "weight" ∨ p.name = "totalWeight") → (pyFloat p.value).isSome = true) ∧
      (p.name = "timestamp" → (pyInt p.value).isSome = true)) →
    (foldParams st ps).isSome = true := by
  intro ps
  induction ps with
  | nil => intro st _; simp [foldParams]
  | cons p ps ih =>
    intro st hclean
    have hcp := hclean p (List.mem_cons_self _ _)
    have hcps : ∀ q ∈ ps,
        ((q.name = "weight" ∨ q.name = "totalWeight") → (pyFloat q.value).isSome = true) ∧
        (q.name = "timestamp" → (pyInt q.value).isSome = true) :=
      fun q hq => hclean q (List.mem_cons_of_mem _ hq)
    obtain ⟨st3, hs⟩ : ∃ st3, stepParam st p = some st3 := by
      by_cases hw1 : p.name = "weight"
      · obtain ⟨q, hq⟩ := Option.isSome_iff_exists.mp (hcp.1 (Or.inl hw1))
        exact ⟨{ st with w := q, found := true }, by simp [stepParam, hw1, hq]⟩
      · by_cases ht1 : p.name = "totalWeight"
        · obtain ⟨q, hq⟩ := Option.isSome_iff_exists.mp (hcp.1 (Or.inr ht1))
          exact ⟨{ st with tw := q }, by simp [stepParam, hw1, ht1, hq]⟩
        · by_cases hv1 : p.name = "voter"
          · exact ⟨{ st with voter := pyStr p.value }, by simp [stepParam, hw1, ht1, hv1]⟩
          · by_cases hts1 : p.name = "timestamp"
            · obtain ⟨t, ht⟩ := Option.isSome_iff_exists.mp (hcp.2 hts1)
              exact ⟨{ st with ets := some t }, by simp [stepParam, hw1, ht1, hv1, hts1, ht]⟩
            · exact ⟨st, by simp [stepParam, hw1, ht1, hv1, hts1]⟩
    rw [show foldParams st (p :: ps) =
        (match stepParam st p with
         | some st3 => foldParams st3 ps
         | none => none) from rfl, hs]
    exact ih st3 hcps

/-- After a successful decoded pass that found a weight, a record is kept
exactly when the instant resolves and the weight is positive. -/
theorem parseVoteCore_found (log : RawItem) (stA : VoteSt) (h : stA.found = true) :
    (parseVoteCore log stA).isSome =
      (specResolvableAux log stA.ets && decide (0 < stA.w)) := by
  unfold parseVoteCore
  rw [if_pos h]
  cases hres : resolveInstant log stA.ets with
  | none =>
    have hr := resolveInstant_isSome log stA.ets
    rw [hres] at hr
    simp [hres, ← hr]
  | some dt =>
    have hr := resolveInstant_isSome log stA.ets
    rw [hres] at hr
    by_cases hw : 0 < stA.w <;> simp [hres, ← hr, h, hw]

/-- When no weight was found and the hex words parse, the hex backup
determines production and the record fields. -/
theorem parseVoteCore_hex (log : RawItem) (stA : VoteSt) (h : stA.found = false)
    (havail : 192 ≤ (dataHexOf log).length)
    (wv twv tsv : Nat)
    (hw : hexToNat? ((dataHexOf log).take 64) = some wv)
    (htw : hexToNat? (((dataHexOf log).drop 64).take 64) = some twv)
    (hts2 : hexToNat? (((dataHexOf log).drop 128).take 64) = some tsv) :
    (parseVoteCore log stA).isSome =
      (specResolvableAux log (some (tsv : Int)) && decide (0 < (wv : ℚ))) ∧
    (∀ r, parseVoteCore log stA = some r →
      r.voting_power = (wv : ℚ) / (10 : ℚ) ^ DEFAULT_DECIMALS ∧
      r.total_weight = (twv : ℚ) / (10 : ℚ) ^ DEFAULT_DECIMALS ∧
      (1 < log.topics.length →
        r.voter = "0x" ++ ((log.topics.getD 1 "").toList.drop 26).asString)) := by
  have hback : hexBackup log stA =
      some { stA with
        w := (wv : ℚ), tw := (twv : ℚ),
        voter := if 1 < log.topics.length then
            "0x" ++ ((log.topics.getD 1 "").toList.drop 26).asString
          else stA.voter,
        ets := some ((tsv : Nat) : Int), found := true } := by
    unfold hexBackup
    rw [if_pos havail, hw, htw, hts2]
  have hcore : parseVoteCore log stA =
      (match resolveInstant log (some ((tsv : Nat) : Int)) with
       | none => none
       | some dt =>
         if true = true ∧ 0 < (wv : ℚ) then
           some ⟨dt.day, dt.secs, (wv : ℚ) / (10 : ℚ) ^ DEFAULT_DECIMALS,
                 (twv : ℚ) / (10 : ℚ) ^ DEFAULT_DECIMALS,
                 if 1 < log.topics.length then
                   "0x" ++ ((log.topics.getD 1 "").toList.drop 26).asString
                 else stA.voter⟩
         else none) := by
    unfold parseVoteCore
    rw [if_neg (by simp [h]), hback]
  constructor
  · rw [hcore]
    cases hres : resolveInstant log (some ((tsv : Nat) : Int)) with
    | none =>
      have hr := resolveInstant_isSome log (some ((tsv : Nat) : Int))
      rw [hres] at hr
      simp [hres, ← hr]
    | some dt =>
      have hr := resolveInstant_isSome log (some ((tsv : Nat) : Int))
      rw [hres] at hr
      by_cases hwp : 0 < (wv : ℚ) <;> simp [hres, ← hr, hwp]
  · intro r hr2
    rw [hcore] at hr2
    cases hres : resolveInstant log (some ((tsv : Nat) : Int)) with
    | none =>
      rw [hres] at hr2
      simp at hr2
    | some dt =>
      rw [hres] at hr2
      simp only [true_and] at hr2
      split at hr2
      · rw [← Option.some.inj hr2]
        exact ⟨rfl, rfl, fun htl => by simp [htl]⟩
      · simp at hr2

/-- Without a found weight and without enough hex data, the item is
dropped. -/
theorem parseVoteCore_noavail (log : RawItem) (stA : VoteSt) (h : stA.found = false)
    (hnav : ¬ 192 ≤ (dataHexOf log).length) :
    parseVoteCore log stA = none := by
  unfold parseVoteCore hexBackup
  rw [if_neg (by simp [h]), if_neg hnav]
  cases hres : resolveInstant log stA.ets <;> simp [hres, h]

/-- A hex parse failure drops the item. -/
theorem parseVoteCore_hexfail (log : RawItem) (stA : VoteSt) (h : stA.found = false)
    (havail : 192 ≤ (dataHexOf log).length)
    (hfail : hexToNat? ((dataHexOf log).take 64) = none ∨
             hexToNat? (((dataHexOf log).drop 64).take 64) = none ∨
             hexToNat? (((dataHexOf log).drop 128).take 64) = none) :
    parseVoteCore log stA = none := by
  unfold parseVoteCore hexBackup
  rw [if_neg (by simp [h]), if_pos havail]
  rcases hfail with h1 | h2 | h3
  · rw [h1]
  · cases hfst : hexToNat? ((dataHexOf log).take 64) <;> rw [h2]
  · cases hfst : hexToNat? ((dataHexOf log).take 64) <;>
      cases hsnd : hexToNat? (((dataHexOf log).drop 64).take 64) <;> rw [h3]

/-- Any record produced without a decoded weight carries the hex-decoded
fields. -/
theorem hexRecordFields (log : RawItem) (stA : VoteSt) (r : VoteRecord)
    (hfound : stA.found = false) (hcore : parseVoteCore log stA = some r) :
    ∃ wv twv : Nat,
      hexToNat? ((dataHexOf log).take 64) = some wv ∧
      hexToNat? (((dataHexOf log).drop 64).take 64) = some twv ∧
      r.voting_power = (wv : ℚ) / (10 : ℚ) ^ DEFAULT_DECIMALS ∧
      r.total_weight = (twv : ℚ) / (10 : ℚ) ^ DEFAULT_DECIMALS ∧
      (1 < log.topics.length →
        r.voter = "0x" ++ ((log.topics.getD 1 "").toList.drop 26).asString) := by
  by_cases havail : 192 ≤ (dataHexOf log).length
  · cases hw1 : hexToNat? ((dataHexOf log).take 64) with
    | none =>
      rw [parseVoteCore_hexfail log stA hfound havail (Or.inl hw1)] at hcore
      simp at hcore
    | some wv =>
      cases hw2 : hexToNat? (((dataHexOf log).drop 64).take 64) with
      | none =>
        rw [parseVoteCore_hexfail log stA hfound havail (Or.inr (Or.inl hw2))] at hcore
        simp at hcore
      | some twv =>
        cases hw3 : hexToNat? (((dataHexOf log).drop 128).take 64) with
        | none =>
          rw [parseVoteCore_hexfail log stA hfound havail (Or.inr (Or.inr hw3))] at hcore
          simp at hcore
        | some tsv =>
          have hx := parseVoteCore_hex log stA hfound havail wv twv tsv hw1 hw2 hw3
          obtain ⟨hvp, htw2, hvoter⟩ := hx.2 r hcore
          exact ⟨wv, twv, rfl, rfl, hvp, htw2, hvoter⟩
  · rw [parseVoteCore_noavail log stA hfound havail] at hcore
    simp at hcore

/-- C4 (amended): a log whose first topic is not the Voted signature is
dropped; for a Voted log that decodes cleanly, a VoteRecord is produced if
and only if a weight value was found (decoded parameter preferred, hex
fallback otherwise), that weight is strictly positive, and an event instant
is resolvable; and any record produced through the hex fallback carries the
three 32-byte big-endian words and the voter from the low 20 bytes of
topic 1. -/
theorem c4_vote_production :
    (∀ log : RawItem, (log.topics = [] ∨ log.topics.headD "" ≠ VOTED_TOPIC_0) →
      parseVote log = none) ∧
    (∀ log : RawItem, log.topics ≠ [] → log.topics.headD "" = VOTED_TOPIC_0 →
      cleanItem log →
      ((parseVote log).isSome = true ↔
        ((∃ q, specWeight log = some q ∧ 0 < q) ∧ specResolvable log = true))) ∧
    (∀ (log : RawItem) (r : VoteRecord), log.topics ≠ [] →
      log.topics.headD "" = VOTED_TOPIC_0 → specFoundDecoded log = false →
      parseVote log = some r →
      ∃ wv twv : Nat,
        hexToNat? ((dataHexOf log).take 64) = some wv ∧
        hexToNat? (((dataHexOf log).drop 64).take 64) = some twv ∧
        r.voting_power = (wv : ℚ) / (10 : ℚ) ^ DEFAULT_DECIMALS ∧
        r.total_weight = (twv : ℚ) / (10 : ℚ) ^ DEFAULT_DECIMALS ∧
        (1 < log.topics.length →
          r.voter = "0x" ++ ((log.topics.getD 1 "").toList.drop 26).asString)) := by
  refine ⟨?_, ?_, ?_⟩
  · intro log hbad
    cases hts : log.topics with
    | nil => simp [parseVote, hts]
    | cons t0 tr =>
      rcases hbad with h | h
      · rw [h] at hts; simp at hts
      · rw [hts] at h
        simp only [List.headD_cons] at h
        simp [parseVote, hts, h]
  · intro log hne htop hclean
    obtain ⟨t0, tr, hts⟩ : ∃ t0 tr, log.topics = t0 :: tr := by
      cases hts : log.topics with
      | nil => exact absurd hts hne
      | cons a b => exact ⟨a, b, rfl⟩
    have ht0 : t0 = VOTED_TOPIC_0 := by rw [hts] at htop; simpa using htop
    cases hdec : log.decoded with
    | none =>
      have hpv : parseVote log = parseVoteCore log ⟨0, 0, "Unknown", none, false⟩ := by
        simp [parseVote, hts, ht0, hdec]
      have hfd : specFoundDecoded log = false := by simp [specFoundDecoded, hdec]
      by_cases havail : 192 ≤ (dataHexOf log).length
      · obtain ⟨hw1, hw2, hw3⟩ := hclean.2 hfd (by simp [specHexAvail, havail])
        obtain ⟨wv, hwv⟩ := Option.isSome_iff_exists.mp hw1
        obtain ⟨twv, htwv⟩ := Option.isSome_iff_exists.mp hw2
        obtain ⟨tsv, htsv⟩ := Option.isSome_iff_exists.mp hw3
        have hx := parseVoteCore_hex log ⟨0, 0, "Unknown", none, false⟩ rfl havail
          wv twv tsv hwv htwv htsv
        rw [hpv, hx.1]
        have hsw : specWeight log = some (wv : ℚ) := by
          simp [specWeight, hfd, specHexAvail, havail, hwv]
        have hse : specEts log = some ((tsv : Nat) : Int) := by
          simp [specEts, hfd, specHexAvail, havail, htsv]
        rw [show specResolvable log = specResolvableAux log (some ((tsv : Nat) : Int)) from
          by unfold specResolvable; rw [hse], hsw]
        simp only [Bool.and_eq_true, decide_eq_true_eq, Option.some.injEq]
        constructor
        · rintro ⟨h1, h2⟩
          exact ⟨⟨(wv : ℚ), rfl, h2⟩, h1⟩
        · rintro ⟨⟨q, hq, hqp⟩, h1⟩
          refine ⟨h1, ?_⟩
          rw [hq]
          exact hqp
      · rw [hpv, parseVoteCore_noavail log ⟨0, 0, "Unknown", none, false⟩ rfl havail]
        have hsw : specWeight log = none := by
          simp [specWeight, hfd, specHexAvail, havail]
        simp [hsw]
    | some ps =>
      have hsome := foldParams_clean_some ps ⟨0, 0, "Unknown", none, false⟩ (hclean.1 ps hdec)
      obtain ⟨stA, hfold⟩ := Option.isSome_iff_exists.mp hsome
      have hpv : parseVote log = parseVoteCore log stA := by
        simp [parseVote, hts, ht0, hdec, hfold]
      obtain ⟨hf, hwn, hws, hen, hes⟩ := foldParams_char ps _ stA hfold
      rw [show (⟨0, 0, "Unknown", none, false⟩ : VoteSt).found = false from rfl,
        Bool.false_or] at hf
      have hfd : specFoundDecoded log = (lastNamed "weight" ps).isSome := by
        simp [specFoundDecoded, hdec]
      cases hlw : lastNamed "weight" ps with
      | some v =>
        have hfda : specFoundDecoded log = true := by rw [hfd, hlw]; rfl
        have hfound : stA.found = true := by rw [hf, hlw]; rfl
        have hwq := hws v hlw
        have hsw : specWeight log = some stA.w := by
          simp [specWeight, hfda, hdec, hlw, hwq]
        have hse : specEts log = stA.ets := by
          simp only [specEts, hfda, Bool.not_true, Bool.false_and, Bool.and_self,
            if_false, hdec]
          cases hlt : lastNamed "timestamp" ps with
          | none => simp [hlt, hen hlt]
          | some v2 =>
            obtain ⟨t, hpt, hets⟩ := hes v2 hlt
            simp [hlt, hpt, hets]
        rw [hpv, parseVoteCore_found log stA hfound]
        rw [show specResolvable log = specResolvableAux log stA.ets from
          by unfold specResolvable; rw [hse], hsw]
        simp only [Bool.and_eq_true, decide_eq_true_eq, Option.some.injEq]
        constructor
        · rintro ⟨h1, h2⟩
          exact ⟨⟨stA.w, rfl, h2⟩, h1⟩
        · rintro ⟨⟨q, hq, hqp⟩, h1⟩
          refine ⟨h1, ?_⟩
          rw [hq]
          exact hqp
      | none =>
        have hfda : specFoundDecoded log = false := by rw [hfd, hlw]; rfl
        have hfound : stA.found = false := by rw [hf, hlw]; rfl
        by_cases havail : 192 ≤ (dataHexOf log).length
        · obtain ⟨hw1, hw2, hw3⟩ := hclean.2 hfda (by simp [specHexAvail, havail])
          obtain ⟨wv, hwv⟩ := Option.isSome_iff_exists.mp hw1
          obtain ⟨twv, htwv⟩ := Option.isSome_iff_exists.mp hw2
          obtain ⟨tsv, htsv⟩ := Option.isSome_iff_exists.mp hw3
          have hx := parseVoteCore_hex log stA hfound havail wv twv tsv hwv htwv htsv
          rw [hpv, hx.1]
          have hsw : specWeight log = some (wv : ℚ) := by
            simp [specWeight, hfda, specHexAvail, havail, hwv]
          have hse : specEts log = some ((tsv : Nat) : Int) := by
            simp [specEts, hfda, specHexAvail, havail, htsv]
          rw [show specResolvable log = specResolvableAux log (some ((tsv : Nat) : Int)) from
            by unfold specResolvable; rw [hse], hsw]
          simp only [Bool.and_eq_true, decide_eq_true_eq, Option.some.injEq]
          constructor
          · rintro ⟨h1, h2⟩
            exact ⟨⟨(wv : ℚ), rfl, h2⟩, h1⟩
          · rintro ⟨⟨q, hq, hqp⟩, h1⟩
            refine ⟨h1, ?_⟩
            rw [hq]
            exact hqp
        · rw [hpv, parseVoteCore_noavail log stA hfound havail]
          have hsw : specWeight log = none := by
            simp [specWeight, hfda, specHexAvail, havail]
          simp [hsw]
  · intro log r hne htop hfd hsome
    obtain ⟨t0, tr, hts⟩ : ∃ t0 tr, log.topics = t0 :: tr := by
      cases hts : log.topics with
      | nil => exact absurd hts hne
      | cons a b => exact ⟨a, b, rfl⟩
    have ht0 : t0 = VOTED_TOPIC_0 := by rw [hts] at htop; simpa using htop
    cases hdec : log.decoded with
    | none =>
      have hpv : parseVote log = parseVoteCore log ⟨0, 0, "Unknown", none, false⟩ := by
        simp [parseVote, hts, ht0, hdec]
      rw [hpv] at hsome
      exact hexRecordFields log ⟨0, 0, "Unknown", none, false⟩ r rfl hsome
    | some ps =>
      cases hfold : foldParams ⟨0, 0, "Unknown", none, false⟩ ps with
      | none =>
        have hpv : parseVote log = none := by
          simp [parseVote, hts, ht0, hdec, hfold]
        rw [hpv] at hsome
        simp at hsome
      | some stA =>
        have hpv : parseVote log = parseVoteCore log stA := by
          simp [parseVote, hts, ht0, hdec, hfold]
        rw [hpv] at hsome
        obtain ⟨hf, hwn, hws, hen, hes⟩ := foldParams_char ps _ stA hfold
        rw [show (⟨0, 0, "Unknown", none, false⟩ : VoteSt).found = false from rfl,
          Bool.false_or] at hf
        have hfound : stA.found = false := by
          rw [hf]
          have hh : specFoundDecoded log = (lastNamed "weight" ps).isSome := by
            simp [specFoundDecoded, hdec]
          rw [← hh, hfd]
        exact hexRecordFields log stA r hfound hsome

/-- The Voted log refuting the original claim: weight present and positive,
instant resolvable, but totalWeight null. -/
def c4log : RawItem := { blankItem with
  topics := [VOTED_TOPIC_0],
  decoded := some [⟨"weight", PVal.pnum 5000000000000000000⟩, ⟨"totalWeight", PVal.pnull⟩],
  timestamp := some "2023-11-14T22:13:20" }

/-- C4 counterexample: a Voted log with a positive decoded weight and a
parseable timestamp is nevertheless dropped because its totalWeight
parameter is null, so the production rule of the claim does not hold as
stated. -/
theorem c4_counterexample :
    c4log.topics.headD "" = VOTED_TOPIC_0 ∧
    specFoundDecoded c4log = true ∧
    specWeight c4log = some 5000000000000000000 ∧
    (0 : ℚ) < 5000000000000000000 ∧
    specResolvable c4log = true ∧
    parseVote c4log = none :=
  ⟨rfl, by decide, by decide, by norm_num, by decide, by decide⟩

/-- A Voted log exercising the hex fallback path. -/
def c4hexlog : RawItem := { blankItem with
  topics := [VOTED_TOPIC_0, "0x000000000000000000000000abcdefabcdefabcdefabcdefabcdefabcdefabcd"],
  data := some "0x00000000000000000000000000000000000000000000000000000000000000010000000000000000000000000000000000000000000000000000000000000002000000000000000000000000000000000000000000000000000000006553f100" }

set_option maxRecDepth 8000 in
/-- C4 witness: the amended theorem applied to the concrete hex-fallback
log. -/
theorem c4_vote_production_witness :
    c4hexlog.topics ≠ [] ∧ c4hexlog.topics.headD "" = VOTED_TOPIC_0 ∧
    cleanItem c4hexlog ∧ specFoundDecoded c4hexlog = false ∧
    parseVote c4hexlog =
      some ⟨19675, 1700000000, (1 : ℚ) / (10 : ℚ) ^ DEFAULT_DECIMALS,
            (2 : ℚ) / (10 : ℚ) ^ DEFAULT_DECIMALS,
            "0xabcdefabcdefabcdefabcdefabcdefabcdefabcd"⟩ ∧
    ((parseVote c4hexlog).isSome = true ↔
      ((∃ q, specWeight c4hexlog = some q ∧ 0 < q) ∧ specResolvable c4hexlog = true)) ∧
    (∃ wv twv : Nat,
      hexToNat? ((dataHexOf c4hexlog).take 64) = some wv ∧
      hexToNat? (((dataHexOf c4hexlog).drop 64).take 64) = some twv ∧
      (⟨19675, 1700000000, (1 : ℚ) / (10 : ℚ) ^ DEFAULT_DECIMALS,
        (2 : ℚ) / (10 : ℚ) ^ DEFAULT_DECIMALS,
        "0xabcdefabcdefabcdefabcdefabcdefabcdefabcd"⟩ : VoteRecord).voting_power =
          (wv : ℚ) / (10 : ℚ) ^ DEFAULT_DECIMALS ∧
      (⟨19675, 1700000000, (1 : ℚ) / (10 : ℚ) ^ DEFAULT_DECIMALS,
        (2 : ℚ) / (10 : ℚ) ^ DEFAULT_DECIMALS,
        "0xabcdefabcdefabcdefabcdefabcdefabcdefabcd"⟩ : VoteRecord).total_weight =
          (twv : ℚ) / (10 : ℚ) ^ DEFAULT_DECIMALS ∧
      (1 < c4hexlog.topics.length →
        (⟨19675, 1700000000, (1 : ℚ) / (10 : ℚ) ^ DEFAULT_DECIMALS,
          (2 : ℚ) / (10 : ℚ) ^ DEFAULT_DECIMALS,
          "0xabcdefabcdefabcdefabcdefabcdefabcdefabcd"⟩ : VoteRecord).voter =
            "0x" ++ ((c4hexlog.topics.getD 1 "").toList.drop 26).asString)) := by
  have hclean : cleanItem c4hexlog := by
    constructor
    · intro ps hps
      rw [show c4hexlog.decoded = none from rfl] at hps
      exact Option.noConfusion hps
    · intro _ _
      exact ⟨rfl, rfl, rfl⟩
  have hpv : parseVote c4hexlog =
      some ⟨19675, 1700000000, (1 : ℚ) / (10 : ℚ) ^ DEFAULT_DECIMALS,
            (2 : ℚ) / (10 : ℚ) ^ DEFAULT_DECIMALS,
            "0xabcdefabcdefabcdefabcdefabcdefabcdefabcd"⟩ := rfl
  refine ⟨by decide, rfl, hclean, rfl, hpv, ?_, ?_⟩
  · exact c4_vote_production.2.1 c4hexlog (by decide) rfl hclean
  · exact c4_vote_production.2.2 c4hexlog _ (by decide) rfl rfl hpv

end Vebtc
